import Mathlib

/-!
Verification development for the `consigli-ceiling-editor` repository.

The editor is a 2-D grid editor: components and blocked ("invalid") cells are
laid out on a resizable grid, viewed through a pan/zoom camera, with a bounded
undo stack and versioned persistence.  This file gives a shallow embedding of
the engine's data model and operations, translated from the TypeScript source
(`src/state/EditorProvider.tsx`, `src/canvas/CanvasStage.tsx`,
`src/ui/Toolbar.tsx`, `src/utils/gridMath.ts`), and proves or refutes the
specification's claims about them.

Modelling conventions:
* JavaScript numbers used by the engine (camera fields, grid inputs, world
  coordinates) are modelled as exact rationals `ℚ`; the arithmetic performed by
  the code (add, subtract, multiply, divide, `Math.floor`) is embedded exactly.
* `crypto.randomUUID()` identifiers are abstracted as natural numbers; where
  the source orders id strings (`localeCompare`), the model orders the
  naturals.  All the verified properties depend only on ids being distinct
  and totally ordered, not on their spelling.
* JavaScript `Set` objects (insertion ordered, duplicate-free) are modelled as
  `List` with an add-if-absent operation; `Record<string, string>` objects are
  modelled as association lists.
* Blocked cells are stored by the source as canonical string keys `"x,y"`.
  The document layer of the model stores them as integer cell pairs; the
  string codec (`cellKey` / `parseCellKey`, translated verbatim from the
  source) together with the round-trip theorem proved below justifies the
  identification for canonical keys.
-/

namespace CeilingEditor

/-! ## Decimal digits and JS-style numeric strings

`parseCellKey` in the source calls JavaScript `Number(...)` on the pieces of
the key and `Math.floor` on the result, and template literals render integers
in decimal.  We embed the decimal fragment of `Number` (optional whitespace,
optional sign, digits with an optional fraction part; empty string is `0`,
anything else in this fragment is `NaN`, modelled as `none`).  Exponent, hex
and `Infinity` forms never arise from the editor's own serialisation and are
outside the modelled fragment. -/

/-- Decimal digit character for `d` (`d ≤ 9`); mirrors decimal rendering in
JS template literals. -/
def decChar : Nat → Char
  | 0 => '0' | 1 => '1' | 2 => '2' | 3 => '3' | 4 => '4'
  | 5 => '5' | 6 => '6' | 7 => '7' | 8 => '8' | _ => '9'

/-- Numeric value of a decimal digit character. -/
def decVal (c : Char) : Nat :=
  match c with
  | '0' => 0 | '1' => 1 | '2' => 2 | '3' => 3 | '4' => 4
  | '5' => 5 | '6' => 6 | '7' => 7 | '8' => 8 | '9' => 9
  | _ => 0

/-- Value of a decimal digit string, most significant digit first. -/
def digitsVal (l : List Char) : Nat :=
  l.foldl (fun a c => a * 10 + decVal c) 0

/-- Fuelled decimal rendering of a natural number (fuel-structural so that it
reduces by `decide`/`rfl`). -/
def natDigitsAux : Nat → Nat → List Char
  | 0, _ => []
  | fuel + 1, n =>
    if n < 10 then [decChar n]
    else natDigitsAux fuel (n / 10) ++ [decChar (n % 10)]

/-- Decimal digit list of a natural number (e.g. `natDigits 40 = ['4','0']`). -/
def natDigits (n : Nat) : List Char :=
  natDigitsAux (n + 1) n

/-- Decimal string of a natural number. -/
def natDecString (n : Nat) : String :=
  ⟨natDigits n⟩

/-- Decimal string of an integer, as a JS template literal renders it. -/
def intDecString (i : Int) : String :=
  if i < 0 then "-" ++ natDecString i.natAbs else natDecString i.natAbs

/-- Whitespace recognised by JS `Number` coercion (the forms relevant here). -/
def isWs (c : Char) : Bool :=
  c = ' ' || c = '\t' || c = '\n' || c = '\r'

/-- Trim leading and trailing whitespace from a character list. -/
def trimWs (l : List Char) : List Char :=
  ((l.dropWhile isWs).reverse.dropWhile isWs).reverse

/-- JS `String.prototype.trim`, structurally (over the whitespace forms
above). -/
def strTrim (s : String) : String :=
  ⟨trimWs s.toList⟩

/-- JS `String.prototype.toLowerCase`, character by character. -/
def strToLower (s : String) : String :=
  ⟨s.toList.map Char.toLower⟩

/-- Unsigned decimal literal: `digits`, `digits.digits`, `.digits` or
`digits.`; anything else is `none` (JS `NaN`). -/
def parseUnsignedDec (l : List Char) : Option ℚ :=
  let intPart := l.takeWhile Char.isDigit
  let rest := l.dropWhile Char.isDigit
  match rest with
  | [] => if intPart.isEmpty then none else some (digitsVal intPart : ℚ)
  | '.' :: frac =>
    if frac.all Char.isDigit && !(intPart.isEmpty && frac.isEmpty) then
      some ((digitsVal intPart : ℚ) + (digitsVal frac : ℚ) / (10 ^ frac.length))
    else none
  | _ => none

/-- JS `Number(s)` on the decimal fragment: trimmed-empty is `0`, otherwise an
optionally signed decimal literal; `none` models `NaN`. -/
def jsNumberDec (s : String) : Option ℚ :=
  match trimWs s.toList with
  | [] => some 0
  | c :: rest =>
    if c = '-' then (parseUnsignedDec rest).map (fun q => -q)
    else if c = '+' then parseUnsignedDec rest
    else parseUnsignedDec (c :: rest)

/-- `key.split(",")` from the source: split a character list at every comma.
JS semantics: `"".split(",") = [""]`, separators at the ends produce empty
pieces. -/
def splitComma : List Char → List (List Char)
  | [] => [[]]
  | c :: rest =>
    if c = ',' then [] :: splitComma rest
    else
      match splitComma rest with
      | [] => [[c]]
      | h :: t => (c :: h) :: t

/-! ## Grid fundamentals (`src/types/editor.ts`, `src/utils/gridMath.ts`) -/

/-- Logical grid dimensions (`GridSize`). -/
structure GridSize where
  cols : Int
  rows : Int
deriving DecidableEq, Repr

/-- A single 0-based grid coordinate (`GridCell`). -/
structure GridCell where
  x : Int
  y : Int
deriving DecidableEq, Repr

/-- `isWithinGrid` from `gridMath.ts`:
`cell.x >= 0 && cell.y >= 0 && cell.x < grid.cols && cell.y < grid.rows`. -/
def isWithinGrid (cell : GridCell) (grid : GridSize) : Bool :=
  decide (0 ≤ cell.x) && decide (0 ≤ cell.y) &&
    decide (cell.x < grid.cols) && decide (cell.y < grid.rows)

/-- `cellKey` from the source: the canonical string key `"x,y"` built by the
template literal. -/
def cellKey (cell : GridCell) : String :=
  intDecString cell.x ++ "," ++ intDecString cell.y

/-- `parseCellKey` from `EditorProvider.tsx`:

```
const [xs, ys] = key.split(",");
const x = Number(xs); const y = Number(ys);
if (!Number.isFinite(x) || !Number.isFinite(y)) return null;
return { x: Math.floor(x), y: Math.floor(y) };
```

A missing second piece destructures to `undefined` and `Number(undefined)` is
`NaN`, modelled by `none`. -/
def parseCellKey (key : String) : Option GridCell :=
  match (splitComma key.toList).head?, (splitComma key.toList)[1]? with
  | some xs, some ys =>
    match jsNumberDec ⟨xs⟩, jsNumberDec ⟨ys⟩ with
    | some x, some y => some ⟨⌊x⌋, ⌊y⌋⟩
    | _, _ => none
  | _, _ => none

/-- JS `Set.add` on an insertion-ordered duplicate-free list. -/
def setAdd {α : Type} [DecidableEq α] (a : α) (l : List α) : List α :=
  if a ∈ l then l else l ++ [a]

/-- JS `Set.delete` on the same representation. -/
def setDelete {α : Type} [DecidableEq α] (a : α) (l : List α) : List α :=
  l.filter (fun b => b ≠ a)

/-- `sanitizeInvalidCells` from `EditorProvider.tsx`, at the string level:
keep only string entries whose key parses, whose floored coordinates are in
bounds, and re-serialise the canonical key into a set.  A `none` element
models a non-string array entry; a `none` argument models a non-array input. -/
def sanitizeInvalidCellsS (keys : Option (List (Option String))) (grid : GridSize) :
    List String :=
  match keys with
  | none => []
  | some ks =>
    ks.foldl
      (fun acc k? =>
        match k? with
        | none => acc
        | some k =>
          match parseCellKey k with
          | none => acc
          | some c =>
            if c.x < 0 || c.y < 0 || grid.cols ≤ c.x || grid.rows ≤ c.y then acc
            else setAdd (cellKey c) acc)
      []

/-! ## Document model (`src/types/editor.ts`, `src/state/initialState.ts`)

Blocked cells are held at this layer as integer cells; the canonical string
key of a cell is `cellKey`, and `parseCellKey_cellKey` below proves the two
presentations interchangeable for canonical keys. -/

/-- The fixed closed set of component categories (`ComponentType`). -/
inductive ComponentType
  | LIGHT
  | AIR_SUPPLY
  | AIR_RETURN
  | SMOKE_DETECTOR
deriving DecidableEq, Repr

/-- Auto-name prefix for each component type (the `prefix` record in
`ensureAutoNames` and `typePrefix` in `CanvasStage.tsx`). -/
def typeShort : ComponentType → String
  | .LIGHT => "L"
  | .AIR_SUPPLY => "AS"
  | .AIR_RETURN => "AR"
  | .SMOKE_DETECTOR => "SD"

/-- A placed component (`PlacedComponent`).  `autoName` is `none` when the
field is absent (older snapshots / freshly placed components before
normalisation); `label` is the optional user override. -/
structure PlacedComponent where
  id : Nat
  type : ComponentType
  cell : GridCell
  autoName : Option String
  label : Option String
deriving DecidableEq, Repr

/-- Camera transform (`Camera`): screen-space pan offsets and a zoom scale. -/
structure Camera where
  panX : ℚ
  panY : ℚ
  zoom : ℚ
deriving DecidableEq, Repr

/-- Runtime-only canvas viewport size (`Viewport`); never persisted. -/
structure Viewport where
  width : ℚ
  height : ℚ
deriving DecidableEq, Repr

/-- Editing tools (`EditorTool`). -/
inductive EditorTool
  | PAN
  | SELECT
  | PLACE
  | ERASE
deriving DecidableEq, Repr

/-- Sub-mode of the PLACE tool (`PlaceMode`). -/
inductive PlaceMode
  | COMPONENT
  | INVALID_CELL
deriving DecidableEq, Repr

/-- The full in-memory editor state (`EditorState`).  `invalidCells` is the
blocked-cell set, `invalidCellLabels` the blocked-cell label map (association
list keyed by cell). -/
structure EditorState where
  grid : GridSize
  invalidCells : List GridCell
  components : List PlacedComponent
  camera : Camera
  viewport : Viewport
  tool : EditorTool
  activeComponentType : ComponentType
  placeMode : PlaceMode
  selectedComponentId : Option Nat
  selectedInvalidCellKey : Option GridCell
  invalidCellLabels : List (GridCell × String)
deriving DecidableEq, Repr

/-- `initialEditorState` from `src/state/initialState.ts`: 20×20 grid, camera
at the origin with zoom 1, PAN tool, LIGHT palette entry, COMPONENT place
mode, nothing placed or selected. -/
def initialEditorState : EditorState where
  grid := ⟨20, 20⟩
  invalidCells := []
  components := []
  camera := ⟨0, 0, 1⟩
  viewport := ⟨0, 0⟩
  tool := .PAN
  activeComponentType := .LIGHT
  placeMode := .COMPONENT
  selectedComponentId := none
  selectedInvalidCellKey := none
  invalidCellLabels := []

/-- `makeEmptyEditorState` from `EditorProvider.tsx`: the blank document used
when no layout is selected (initial state with the document fields cleared). -/
def makeEmptyEditorState : EditorState :=
  { initialEditorState with
    components := []
    invalidCells := []
    selectedComponentId := none
    viewport := ⟨0, 0⟩
    selectedInvalidCellKey := none
    invalidCellLabels := [] }

/-! ## Auto-name machinery (`seedAutoNameCounters`, `ensureAutoNames`) -/

/-- The regex `^([A-Z]+)(\d+)$` from `seedAutoNameCounters`: an auto-name
splits into a non-empty uppercase prefix and a non-empty decimal suffix. -/
def parseAutoName (s : String) : Option (String × Nat) :=
  let cs := s.toList
  let pre := cs.takeWhile (fun c => decide ('A' ≤ c) && decide (c ≤ 'Z'))
  let rest := cs.dropWhile (fun c => decide ('A' ≤ c) && decide (c ≤ 'Z'))
  if pre.isEmpty then none
  else if rest.isEmpty then none
  else if rest.all Char.isDigit then some (⟨pre⟩, digitsVal rest) else none

/-- Association-list read for the counters map. -/
def countersGet (m : List (String × Nat)) (p : String) : Option Nat :=
  (m.find? (fun e => e.1 = p)).map Prod.snd

/-- Association-list write for the counters map. -/
def countersSet (m : List (String × Nat)) (p : String) (n : Nat) :
    List (String × Nat) :=
  if m.any (fun e => e.1 = p) then
    m.map (fun e => if e.1 = p then (p, n) else e)
  else m ++ [(p, n)]

/-- Does this component already carry a usable auto-name?
(`typeof raw === "string" && raw.trim().length > 0`). -/
def hasAutoName (c : PlacedComponent) : Bool :=
  match c.autoName with
  | some raw => !(strTrim raw = "")
  | none => false

/-- `seedAutoNameCounters`: read existing auto-names and build the map
`prefix ↦ max suffix`, skipping absent, blank and non-matching names. -/
def seedAutoNameCounters (components : List PlacedComponent) :
    List (String × Nat) :=
  components.foldl
    (fun counters c =>
      match c.autoName with
      | none => counters
      | some raw =>
        let name := strTrim raw
        if name = "" then counters
        else
          match parseAutoName name with
          | none => counters
          | some (pre, num) =>
            countersSet counters pre (max ((countersGet counters pre).getD 0) num))
    []

/-- The mapping pass of `ensureAutoNames`: components with a usable auto-name
are kept as-is; the others receive `prefix ++ (counter + 1)` with the counter
threading through the list. -/
def assignAutoNames (counters : List (String × Nat)) :
    List PlacedComponent → List PlacedComponent
  | [] => []
  | c :: rest =>
    if hasAutoName c then c :: assignAutoNames counters rest
    else
      let p := typeShort c.type
      let next := (countersGet counters p).getD 0 + 1
      { c with autoName := some (p ++ natDecString next) } ::
        assignAutoNames (countersSet counters p next) rest

/-- `ensureAutoNames` from `EditorProvider.tsx`. -/
def ensureAutoNames (components : List PlacedComponent) : List PlacedComponent :=
  assignAutoNames (seedAutoNameCounters components) components

/-! ## Blocked-cell label map helpers (`Record<string,string>` keyed by cell) -/

/-- Object read `labels[k]`. -/
def labelsGet (m : List (GridCell × String)) (k : GridCell) : Option String :=
  (m.find? (fun e => e.1 = k)).map Prod.snd

/-- Object write `labels[k] = v` (replace or append). -/
def labelSet (m : List (GridCell × String)) (k : GridCell) (v : String) :
    List (GridCell × String) :=
  if m.any (fun e => e.1 = k) then
    m.map (fun e => if e.1 = k then (k, v) else e)
  else m ++ [(k, v)]

/-- Object delete `delete labels[k]`. -/
def labelDelete (m : List (GridCell × String)) (k : GridCell) :
    List (GridCell × String) :=
  m.filter (fun e => e.1 ≠ k)

/-- `sanitizeInvalidCellLabels` from `EditorProvider.tsx`, applied to the
well-typed in-memory label map: keep entries whose key is in bounds and
currently blocked and whose value trims non-empty; store the trimmed value
under the canonical key. -/
def sanitizeInvalidCellLabelsD (labels : List (GridCell × String))
    (grid : GridSize) (invalidCells : List GridCell) : List (GridCell × String) :=
  labels.foldl
    (fun next e =>
      if e.1.x < 0 || e.1.y < 0 || grid.cols ≤ e.1.x || grid.rows ≤ e.1.y then next
      else if e.1 ∉ invalidCells then next
      else
        let trimmed := strTrim e.2
        if trimmed = "" then next else labelSet next e.1 trimmed)
    []

/-! ## Provider operations (`EditorProvider.tsx`)

Each typed setter below is the pure document transition performed inside
`applyUpdate`.  Undo bookkeeping (which snapshots get pushed) is layered on
top via `HistState`.  Every call site of the undoable setters constructs a
fresh state object, so in the source `next !== prev` always holds there and a
snapshot is always pushed; the model pushes unconditionally for those. -/

/-- `setComponents`: normalise auto-names and drop a selection pointing at a
component that no longer exists. -/
def applySetComponents (f : List PlacedComponent → List PlacedComponent)
    (s : EditorState) : EditorState :=
  let nextComponents := ensureAutoNames (f s.components)
  let nextSelected :=
    match s.selectedComponentId with
    | some i => if nextComponents.any (fun c => c.id = i) then some i else none
    | none => none
  { s with components := nextComponents, selectedComponentId := nextSelected }

/-- `setInvalidCells`: apply the update, evict components that collide with
the new blocked set, re-sanitise labels and the selected blocked key, clear
the component selection. -/
def applySetInvalidCells (f : List GridCell → List GridCell)
    (s : EditorState) : EditorState :=
  let nextInvalid := f s.invalidCells
  let nextComponents := s.components.filter (fun c => c.cell ∉ nextInvalid)
  let nextLabels := sanitizeInvalidCellLabelsD s.invalidCellLabels s.grid nextInvalid
  let nextSelectedInvalid :=
    match s.selectedInvalidCellKey with
    | some k => if k ∈ nextInvalid then some k else none
    | none => none
  { s with
    invalidCells := nextInvalid
    components := nextComponents
    selectedComponentId := none
    invalidCellLabels := nextLabels
    selectedInvalidCellKey := nextSelectedInvalid }

/-- `toggleInvalidCell`: flip blocked membership; blocking evicts the
occupying component, unblocking discards the cell's label; the selected
blocked key is cleared when its cell is unblocked. -/
def toggleInvalidCellD (cell : GridCell) (s : EditorState) : EditorState :=
  let willBeInvalid := cell ∉ s.invalidCells
  let nextInvalid :=
    if willBeInvalid then setAdd cell s.invalidCells else setDelete cell s.invalidCells
  let nextComponents :=
    if willBeInvalid then s.components.filter (fun c => c.cell ≠ cell) else s.components
  let nextLabels :=
    if willBeInvalid then s.invalidCellLabels else labelDelete s.invalidCellLabels cell
  let nextSelectedInvalid :=
    if willBeInvalid then s.selectedInvalidCellKey
    else
      match s.selectedInvalidCellKey with
      | some k => if k = cell then none else some k
      | none => none
  { s with
    invalidCells := nextInvalid
    components := nextComponents
    selectedComponentId := none
    invalidCellLabels := nextLabels
    selectedInvalidCellKey := nextSelectedInvalid }

/-- `setGrid`: clamp each dimension below by 1 (flooring fractional input),
drop blocked cells outside the new bounds, drop components outside the new
bounds or colliding with the surviving blocked set, re-sanitise labels and
the selected blocked key, clear the component selection. -/
def setGridD (cols rows : ℚ) (s : EditorState) : EditorState :=
  let nextCols : Int := max 1 ⌊cols⌋
  let nextRows : Int := max 1 ⌊rows⌋
  let nextGrid : GridSize := ⟨nextCols, nextRows⟩
  let nextInvalid :=
    s.invalidCells.foldl
      (fun acc c => if isWithinGrid c nextGrid then setAdd c acc else acc) []
  let nextComponents :=
    s.components.filter (fun c => isWithinGrid c.cell nextGrid && c.cell ∉ nextInvalid)
  let nextLabels := sanitizeInvalidCellLabelsD s.invalidCellLabels nextGrid nextInvalid
  let nextSelectedInvalid :=
    match s.selectedInvalidCellKey with
    | some k => if k ∈ nextInvalid then some k else none
    | none => none
  { s with
    grid := nextGrid
    invalidCells := nextInvalid
    components := nextComponents
    selectedComponentId := none
    invalidCellLabels := nextLabels
    selectedInvalidCellKey := nextSelectedInvalid }

/-! ## Undo history (`pushHistory`, `undo`) -/

/-- `HISTORY_LIMIT` from `EditorProvider.tsx`. -/
def HISTORY_LIMIT : Nat := 50

/-- `pushHistory`: append the pre-mutation snapshot and keep only the last
`HISTORY_LIMIT` entries. -/
def pushHistory (snapshot : EditorState) (past : List EditorState) :
    List EditorState :=
  let next := past ++ [snapshot]
  if HISTORY_LIMIT < next.length then next.drop (next.length - HISTORY_LIMIT)
  else next

/-- The live document together with its undo stack (`state` plus `pastRef`). -/
structure HistState where
  doc : EditorState
  past : List EditorState
deriving DecidableEq, Repr

/-- `undo`: no-op on an empty stack; otherwise replace the live document by
the most recent snapshot, preserving the current viewport. -/
def undoStep (h : HistState) : HistState :=
  match h.past.getLast? with
  | none => h
  | some prevState =>
    ⟨{ prevState with viewport := h.doc.viewport }, h.past.dropLast⟩

/-- An undoable mutation: push the pre-mutation snapshot, then apply. -/
def pushMut (f : EditorState → EditorState) (h : HistState) : HistState :=
  ⟨f h.doc, pushHistory h.doc h.past⟩

/-- A non-undoable mutation (camera, viewport, tool, bare selection). -/
def plainMut (f : EditorState → EditorState) (h : HistState) : HistState :=
  ⟨f h.doc, h.past⟩

/-- `setComponents` with its history push. -/
def setComponentsH (f : List PlacedComponent → List PlacedComponent) :
    HistState → HistState :=
  pushMut (applySetComponents f)

/-- `setInvalidCells` with its history push. -/
def setInvalidCellsH (f : List GridCell → List GridCell) : HistState → HistState :=
  pushMut (applySetInvalidCells f)

/-- `toggleInvalidCell` with its history push. -/
def toggleInvalidCellH (cell : GridCell) : HistState → HistState :=
  pushMut (toggleInvalidCellD cell)

/-- `setGrid` with its history push. -/
def setGridH (cols rows : ℚ) : HistState → HistState :=
  pushMut (setGridD cols rows)

/-- The public generic `setState` wrapper with its history push (every call
site's action constructs a fresh object, so history is always recorded). -/
def setStateH (f : EditorState → EditorState) : HistState → HistState :=
  pushMut f

/-- `setSelectedComponentId` (non-undoable). -/
def setSelectedComponentIdNU (id? : Option Nat) : HistState → HistState :=
  plainMut (fun s => { s with selectedComponentId := id? })

/-- `setCamera` (non-undoable). -/
def setCameraNU (f : Camera → Camera) : HistState → HistState :=
  plainMut (fun s => { s with camera := f s.camera })

/-- `setViewportSize` (non-undoable; the source also skips the update when
the size is unchanged). -/
def setViewportSizeNU (w ht : ℚ) : HistState → HistState :=
  plainMut (fun s =>
    if s.viewport.width = w ∧ s.viewport.height = ht then s
    else { s with viewport := ⟨w, ht⟩ })

/-- `setTool` (non-undoable). -/
def setToolNU (tool : EditorTool) : HistState → HistState :=
  plainMut (fun s => { s with tool := tool })

/-- `setActiveComponentType` (non-undoable). -/
def setActiveComponentTypeNU (t : ComponentType) : HistState → HistState :=
  plainMut (fun s => { s with activeComponentType := t })

/-! ## Canvas interaction handlers (`src/canvas/CanvasStage.tsx`)

Each handler below is the document effect of one pointer event, expressed as
the sequence of provider calls the source makes.  Tool gating (which tool is
active when the handler runs) is orthogonal to the document transition and is
not repeated here. -/

/-- `canDropOnCell`: a component may drop on a cell iff it is within the
grid, not blocked, and not occupied by a different component. -/
def canDropOnCell (s : EditorState) (cell : GridCell) (movingId : Nat) : Bool :=
  isWithinGrid cell s.grid &&
    !(decide (cell ∈ s.invalidCells)) &&
    !(s.components.any (fun c => decide (c.id ≠ movingId) && decide (c.cell = cell)))

/-- `canDropInvalidOnCell`: a dragged blocked cell may drop on any in-grid
cell that is not another blocked cell (dropping back on itself is allowed;
landing on a component is allowed and evicts it). -/
def canDropInvalidOnCell (s : EditorState) (toCell fromKey : GridCell) : Bool :=
  isWithinGrid toCell s.grid &&
    !(decide (toCell ≠ fromKey) && decide (toCell ∈ s.invalidCells))

/-- `setState(prev => ({...prev, selectedInvalidCellKey: null}))`, the
blocked-selection clear that several handlers issue. -/
def clearSelInvalid : HistState → HistState :=
  setStateH (fun p => { p with selectedInvalidCellKey := none })

/-- PLACE-tool click in COMPONENT mode: bail outside the grid or on a blocked
cell; otherwise clear the blocked selection and append a new component unless
the cell is already occupied.  `id` abstracts the fresh `crypto.randomUUID()`;
the appended component carries the active type read before the update. -/
def placeClick (id : Nat) (cell : GridCell) (h : HistState) : HistState :=
  if !isWithinGrid cell h.doc.grid then h
  else if cell ∈ h.doc.invalidCells then h
  else
    setComponentsH
      (fun prev =>
        if prev.any (fun c => c.cell = cell) then prev
        else prev ++ [⟨id, h.doc.activeComponentType, cell, none, none⟩])
      (clearSelInvalid h)

/-- PLACE-tool click in INVALID_CELL mode: toggle the blocked cell and select
it when it became blocked (computed from the pre-toggle state). -/
def toggleInvalidClick (cell : GridCell) (h : HistState) : HistState :=
  if !isWithinGrid cell h.doc.grid then h
  else
    setStateH
      (fun p =>
        { p with selectedInvalidCellKey :=
            if cell ∉ h.doc.invalidCells then some cell else none })
      (setSelectedComponentIdNU none (toggleInvalidCellH cell h))

/-- The trailing `clearInvalidSelectionIfMissing` call of the ERASE handler:
reading the (stale) pre-event state, clear the blocked selection when its key
is not blocked there. -/
def eraseStaleSelFix (k : GridCell) (oldInvalid : List GridCell)
    (h : HistState) : HistState :=
  if k ∉ oldInvalid then clearSelInvalid h else h

/-- The selection fix-ups the ERASE handler performs after removing a blocked
marker, driven by the pre-event selection and blocked set. -/
def eraseInvalidSelFix (cell : GridCell) (sel : Option GridCell)
    (oldInvalid : List GridCell) (h : HistState) : HistState :=
  match sel with
  | none => h
  | some k => eraseStaleSelFix k oldInvalid (if k = cell then clearSelInvalid h else h)

/-- ERASE-tool click: remove a component at the cell if present (component
takes priority), otherwise remove a blocked marker if present; clear any
selection that referenced the removed item. -/
def eraseClick (cell : GridCell) (h : HistState) : HistState :=
  if !isWithinGrid cell h.doc.grid then h
  else if h.doc.components.any (fun c => c.cell = cell) then
    match h.doc.selectedComponentId with
    | some _ =>
      setSelectedComponentIdNU none
        (setComponentsH (fun prev => prev.filter (fun c => c.cell ≠ cell)) h)
    | none => setComponentsH (fun prev => prev.filter (fun c => c.cell ≠ cell)) h
  else
    eraseInvalidSelFix cell h.doc.selectedInvalidCellKey h.doc.invalidCells
      (setInvalidCellsH
        (fun prev => if cell ∉ prev then prev else setDelete cell prev) h)

/-- `finalizeComponentDrag`: commit the drop when `canDropOnCell` allows it,
updating the dragged component's cell in place; otherwise nothing changes. -/
def finalizeComponentDrag (movingId : Nat) (dropCell : GridCell)
    (h : HistState) : HistState :=
  if canDropOnCell h.doc dropCell movingId then
    setComponentsH
      (fun _ =>
        h.doc.components.map
          (fun c => if c.id = movingId then { c with cell := dropCell } else c))
      h
  else h

/-- `finalizeInvalidDrag`: on a valid drop move the blocked key, evict any
component on the destination cell and select the new key; on an invalid drop
keep the selection on the original cell. -/
def finalizeInvalidDrag (fromKey dropCell : GridCell) (h : HistState) : HistState :=
  if canDropInvalidOnCell h.doc dropCell fromKey then
    setStateH (fun p => { p with selectedInvalidCellKey := some dropCell })
      (setSelectedComponentIdNU none
        (setComponentsH
          (fun _ => h.doc.components.filter (fun c => c.cell ≠ dropCell))
          (setInvalidCellsH
            (fun _ => setAdd dropCell (setDelete fromKey h.doc.invalidCells)) h)))
  else
    setStateH (fun p => { p with selectedInvalidCellKey := some fromKey }) h

/-! ## Toolbar operations (`src/ui/Toolbar.tsx`) -/

/-- `clampInt`: clamp a numeric input to an integer range; `none` models
`NaN` (non-numeric input), which clamps to the minimum. -/
def clampInt (value : Option ℚ) (lo hi : Int) : Int :=
  match value with
  | none => lo
  | some v => max lo (min hi ⌊v⌋)

/-- `applyGridSize`: normalise both inputs through `clampInt 1 1000` and
resize the grid with the clamped values. -/
def applyGridSize (colsInput rowsInput : Option ℚ) (h : HistState) : HistState :=
  setGridH (clampInt colsInput 1 1000 : ℚ) (clampInt rowsInput 1 1000 : ℚ) h

/-- Toolbar `clearAll`: empty components, blocked cells, labels and both
selections; the grid is untouched. -/
def clearAllT (h : HistState) : HistState :=
  setStateH
    (fun p =>
      { p with
        components := []
        invalidCells := []
        selectedComponentId := none
        selectedInvalidCellKey := none
        invalidCellLabels := [] })
    h

/-- Toolbar `deleteItem` on a component. -/
def deleteComponentT (id : Nat) (h : HistState) : HistState :=
  setStateH
    (fun prev =>
      { prev with
        components := prev.components.filter (fun c => c.id ≠ id)
        selectedComponentId :=
          if prev.selectedComponentId = some id then none
          else prev.selectedComponentId })
    h

/-- Toolbar `deleteItem` on a blocked cell. -/
def deleteInvalidT (k : GridCell) (h : HistState) : HistState :=
  setStateH
    (fun prev =>
      { prev with
        invalidCells := setDelete k prev.invalidCells
        invalidCellLabels := labelDelete prev.invalidCellLabels k
        selectedInvalidCellKey :=
          if prev.selectedInvalidCellKey = some k then none
          else prev.selectedInvalidCellKey })
    h

/-! ## Display names and rename (`takenNames`, `commitRename`)

The Toolbar computes the *displayed* auto-names positionally: within each
type, component ids are sorted and numbered `1..n`; blocked cells are sorted
by their string key and numbered `IV1..IVk`.  (This is distinct from the
persisted `autoName` field maintained by `ensureAutoNames`.)  Id order models
`localeCompare` on the id strings. -/

/-- Insertion into a `≤`-sorted list. -/
def insertByLe {α : Type} (le : α → α → Bool) (a : α) : List α → List α
  | [] => [a]
  | b :: t => if le a b then a :: b :: t else b :: insertByLe le a t

/-- `Array.sort` with a comparator, as insertion sort. -/
def sortByLe {α : Type} (le : α → α → Bool) (l : List α) : List α :=
  l.foldr (insertByLe le) []

/-- Codepoint-lexicographic string order (models `localeCompare`). -/
def charListLe : List Char → List Char → Bool
  | [], _ => true
  | _ :: _, [] => false
  | a :: as, b :: bs => if a = b then charListLe as bs else decide (a < b)

/-- String comparator used when sorting blocked-cell keys. -/
def strLe (a b : String) : Bool :=
  charListLe a.toList b.toList

/-- The palette order the Toolbar iterates in (`COMPONENTS`). -/
def typeOrder : List ComponentType :=
  [.LIGHT, .AIR_SUPPLY, .AIR_RETURN, .SMOKE_DETECTOR]

/-- Positional auto-name table: per type, ids sorted ascending and numbered
from 1 (`buildAutoNameMap` / the grouping in `takenNames` and `placedList`). -/
def positionalAutoPairs (components : List PlacedComponent) : List (Nat × String) :=
  typeOrder.foldl
    (fun acc t =>
      let ids := (components.filter (fun c => c.type = t)).map (fun c => c.id)
      let sortedIds := sortByLe (fun a b => decide (a ≤ b)) ids
      acc ++ sortedIds.enum.map (fun e => (e.2, typeShort t ++ natDecString (e.1 + 1))))
    []

/-- Positional auto-name of one component id (`autoById.get(id) ?? "UNKNOWN"`). -/
def positionalAuto (components : List PlacedComponent) (id : Nat) : String :=
  (((positionalAutoPairs components).find? (fun e => e.1 = id)).map Prod.snd).getD
    "UNKNOWN"

/-- Displayed name of a component: trimmed custom label when non-empty, else
the positional auto-name. -/
def displayNameOfComp (components : List PlacedComponent) (c : PlacedComponent) :
    String :=
  if strTrim (c.label.getD "") ≠ "" then strTrim (c.label.getD "")
  else positionalAuto components c.id

/-- `takenNames`: the lowercase display names of every component and blocked
cell (custom label when present, positional auto-name otherwise). -/
def takenNames (s : EditorState) : List String :=
  let compNames :=
    s.components.map (fun c => strToLower (displayNameOfComp s.components c))
  let sortedInv := sortByLe (fun a b => strLe (cellKey a) (cellKey b)) s.invalidCells
  let invNames :=
    sortedInv.enum.map
      (fun e =>
        let custom := strTrim ((labelsGet s.invalidCellLabels e.2).getD "")
        strToLower (if custom ≠ "" then custom else "IV" ++ natDecString (e.1 + 1)))
  compNames ++ invNames

/-- The naming-conflict message raised by `commitRename`. -/
def renameErrMsg : String :=
  "Name already exists. Choose a unique name."

/-- The `currentDisplay` read performed by `commitRename` on a component: the
trimmed current custom label, or `""` when absent. -/
def currentCustomLabel (s : EditorState) (id : Nat) : String :=
  strTrim
    (((s.components.find? (fun c => c.id = id)).bind (fun c => c.label)).getD "")

/-- `commitRename` on a component: blank clears the custom label; renaming to
the current custom label (case-insensitively) is a no-op; a name already in
`takenNames` is rejected with `renameErrMsg` and no mutation; otherwise the
label is set.  Returns the next document and the error, if any. -/
def commitRenameComponent (s : EditorState) (id : Nat) (raw : String) :
    EditorState × Option String :=
  if strTrim raw = "" then
    ({ s with
        components :=
          s.components.map
            (fun c => if c.id = id then { c with label := some "" } else c) },
      none)
  else if currentCustomLabel s id ≠ "" ∧
      strToLower (currentCustomLabel s id) = strToLower (strTrim raw) then
    (s, none)
  else if strToLower (strTrim raw) ∈ takenNames s then (s, some renameErrMsg)
  else
    ({ s with
        components :=
          s.components.map
            (fun c => if c.id = id then { c with label := some (strTrim raw) } else c) },
      none)

/-- `commitRename` on a blocked cell: blank deletes the label entry (no-op if
absent or already blank); otherwise the same no-op / conflict / set logic,
storing the label in `invalidCellLabels`. -/
def commitRenameInvalid (s : EditorState) (k : GridCell) (raw : String) :
    EditorState × Option String :=
  if strTrim raw = "" then
    (match labelsGet s.invalidCellLabels k with
      | none => s
      | some v =>
        if v = "" then s
        else { s with invalidCellLabels := labelDelete s.invalidCellLabels k },
      none)
  else if strTrim ((labelsGet s.invalidCellLabels k).getD "") ≠ "" ∧
      strToLower (strTrim ((labelsGet s.invalidCellLabels k).getD "")) =
        strToLower (strTrim raw) then
    (s, none)
  else if strToLower (strTrim raw) ∈ takenNames s then (s, some renameErrMsg)
  else
    ({ s with invalidCellLabels := labelSet s.invalidCellLabels k (strTrim raw) },
      none)

/-! ## Persistence codec (`toPersistedEditorState`, `fromPersistedEditorState`)

A persisted snapshot arrives as untrusted JSON.  The raw value is modelled
structurally: each field that the loader type-checks is an `Option` whose
`none` means "absent or of the wrong type".  Blocked-cell array entries carry
the parse result of their key string (`none` = non-string or unparseable);
label entries carry the parsed key and the value when it is a string.  The
raw selected blocked key is modelled as the parsed cell of a canonical key
string; non-canonical strings never match the sanitised set and behave as
`none`. -/

/-- Raw `grid` object: `cols`/`rows` are `some` iff `typeof` is number. -/
structure RawGrid where
  cols : Option ℚ
  rows : Option ℚ
deriving DecidableEq, Repr

/-- Raw `camera` object: only `zoom` is type-checked by the loader; `panX`
and `panY` are adopted verbatim. -/
structure RawCamera where
  panX : ℚ
  panY : ℚ
  zoom : Option ℚ
deriving DecidableEq, Repr

/-- A raw persisted snapshot (`PersistedEditorStateV1` as read back from
storage before validation). -/
structure RawSnapshot where
  v : Option Int
  grid : Option RawGrid
  components : Option (List PlacedComponent)
  camera : Option RawCamera
  tool : Option EditorTool
  activeComponentType : Option ComponentType
  selectedComponentId : Option Nat
  placeMode : Option PlaceMode
  invalidCells : Option (List (Option GridCell))
  selectedInvalidCellKey : Option GridCell
  invalidCellLabels : Option (List (GridCell × Option String))
deriving DecidableEq, Repr

/-- One loop iteration of `sanitizeInvalidCells` at the document layer: skip
entries that did not parse and out-of-bounds cells, add the rest to the set. -/
def sanitizeCellStep (grid : GridSize) (acc : List GridCell)
    (k? : Option GridCell) : List GridCell :=
  match k? with
  | none => acc
  | some c =>
    if c.x < 0 || c.y < 0 || grid.cols ≤ c.x || grid.rows ≤ c.y then acc
    else setAdd c acc

/-- `sanitizeInvalidCells` at the document layer: drop non-parsing entries
and out-of-bounds cells, collect the rest into a set. -/
def sanitizeInvalidCellsD (keys : Option (List (Option GridCell)))
    (grid : GridSize) : List GridCell :=
  match keys with
  | none => []
  | some ks => ks.foldl (sanitizeCellStep grid) []

/-- `sanitizeInvalidCellLabels` on raw label entries: drop non-string values,
unparseable or out-of-bounds keys, keys not in the blocked set, and values
that trim to empty. -/
def sanitizeInvalidCellLabelsRawD (labels : Option (List (GridCell × Option String)))
    (grid : GridSize) (invalidCells : List GridCell) : List (GridCell × String) :=
  match labels with
  | none => []
  | some ls =>
    ls.foldl
      (fun next e =>
        match e.2 with
        | none => next
        | some v =>
          if e.1.x < 0 || e.1.y < 0 || grid.cols ≤ e.1.x || grid.rows ≤ e.1.y then
            next
          else if e.1 ∉ invalidCells then next
          else
            let trimmed := strTrim v
            if trimmed = "" then next else labelSet next e.1 trimmed)
      []

/-- `fromPersistedEditorState`: structural validation (version tag 1, numeric
grid dimensions, array components, numeric camera zoom), then sanitisation of
blocked cells, labels and the selected blocked key, and auto-name backfill;
`none` when validation fails. -/
def fromPersistedEditorState (raw : RawSnapshot) : Option EditorState :=
  if raw.v ≠ some 1 then none
  else
    match raw.grid with
    | none => none
    | some g =>
      match g.cols, g.rows with
      | some cols, some rows =>
        match raw.components with
        | none => none
        | some comps =>
          match raw.camera with
          | none => none
          | some cam =>
            match cam.zoom with
            | none => none
            | some zoom =>
              let nextGrid : GridSize := ⟨max 1 ⌊cols⌋, max 1 ⌊rows⌋⟩
              let restoredInvalid := sanitizeInvalidCellsD raw.invalidCells nextGrid
              let restoredLabels :=
                sanitizeInvalidCellLabelsRawD raw.invalidCellLabels nextGrid
                  restoredInvalid
              let restoredSelectedInvalid :=
                match raw.selectedInvalidCellKey with
                | some k => if k ∈ restoredInvalid then some k else none
                | none => none
              let restoredComponents := ensureAutoNames comps
              some
                { initialEditorState with
                  grid := nextGrid
                  invalidCells := restoredInvalid
                  components := restoredComponents
                  camera := ⟨cam.panX, cam.panY, zoom⟩
                  tool := raw.tool.getD initialEditorState.tool
                  activeComponentType :=
                    raw.activeComponentType.getD initialEditorState.activeComponentType
                  selectedComponentId := raw.selectedComponentId
                  placeMode := raw.placeMode.getD initialEditorState.placeMode
                  viewport := ⟨0, 0⟩
                  selectedInvalidCellKey := restoredSelectedInvalid
                  invalidCellLabels := restoredLabels }
      | _, _ => none

/-- `toPersistedEditorState`: serialise the in-memory state; the viewport is
excluded, the blocked-cell set becomes an array of canonical keys. -/
def toPersistedEditorState (state : EditorState) : RawSnapshot where
  v := some 1
  grid := some ⟨some (state.grid.cols : ℚ), some (state.grid.rows : ℚ)⟩
  components := some state.components
  camera := some ⟨state.camera.panX, state.camera.panY, some state.camera.zoom⟩
  tool := some state.tool
  activeComponentType := some state.activeComponentType
  selectedComponentId := state.selectedComponentId
  placeMode := some state.placeMode
  invalidCells := some (state.invalidCells.map some)
  selectedInvalidCellKey := state.selectedInvalidCellKey
  invalidCellLabels := some (state.invalidCellLabels.map (fun e => (e.1, some e.2)))

/-- `openLayout`'s state effect for a snapshot: a restorable snapshot becomes
the live document (keeping the current viewport); a corrupt one falls back to
the empty document (also keeping the current viewport). -/
def openSnapshot (raw : RawSnapshot) (curr : EditorState) : EditorState :=
  match fromPersistedEditorState raw with
  | none => { makeEmptyEditorState with viewport := curr.viewport }
  | some restored => { restored with viewport := curr.viewport }

/-! ## Spatial transforms (`src/utils/gridMath.ts`), over exact rationals -/

/-- A point in canvas (screen pixel) coordinates. -/
structure CanvasPoint where
  x : ℚ
  y : ℚ
deriving DecidableEq, Repr

/-- A point in world coordinates. -/
structure WorldPoint where
  x : ℚ
  y : ℚ
deriving DecidableEq, Repr

/-- `DEFAULT_CELL_SIZE = 40` world units per cell. -/
def DEFAULT_CELL_SIZE : ℚ := 40

/-- `canvasToWorld`: remove the pan offset, undo the zoom scaling. -/
def canvasToWorld (point : CanvasPoint) (camera : Camera) : WorldPoint :=
  ⟨(point.x - camera.panX) / camera.zoom, (point.y - camera.panY) / camera.zoom⟩

/-- `worldToCanvas`: scale by zoom, apply the pan offset. -/
def worldToCanvas (point : WorldPoint) (camera : Camera) : CanvasPoint :=
  ⟨point.x * camera.zoom + camera.panX, point.y * camera.zoom + camera.panY⟩

/-- `worldToCell`: floor world coordinates down to the containing cell. -/
def worldToCell (world : WorldPoint) (cellSize : ℚ) : GridCell :=
  ⟨⌊world.x / cellSize⌋, ⌊world.y / cellSize⌋⟩

/-- `cellToWorld`: top-left corner of a cell in world space. -/
def cellToWorld (cell : GridCell) (cellSize : ℚ) : WorldPoint :=
  ⟨cell.x * cellSize, cell.y * cellSize⟩

/-! ## Reachable states

`FullState` couples the live document and undo stack with the saved-layout
store.  `Step` enumerates the engine operations named by the specification's
uniqueness invariant — place, move, erase, toggle-blocked, move-blocked,
resize, clear, undo, save and open — plus the non-undoable camera / viewport
/ tool / selection setters.  `place` carries the freshness of the generated
id (`crypto.randomUUID()` never collides with an existing id). -/

/-- The live document, its undo stack, and the saved-layout snapshots. -/
structure FullState where
  hist : HistState
  saved : List RawSnapshot

/-- Apply a history-level transition, leaving the saved store unchanged. -/
def onHist (f : HistState → HistState) (st : FullState) : FullState :=
  ⟨f st.hist, st.saved⟩

/-- `saveLayout`'s document-relevant effect: prepend the encoded snapshot of
the live document to the store (the document and undo stack are untouched). -/
def saveCurrent (st : FullState) : FullState :=
  ⟨st.hist, toPersistedEditorState st.hist.doc :: st.saved⟩

/-- `openLayout`'s effect for a stored snapshot: load (or fall back to the
empty document), reset the undo history. -/
def openStored (raw : RawSnapshot) (st : FullState) : FullState :=
  ⟨⟨openSnapshot raw st.hist.doc, []⟩, st.saved⟩

/-- `clearSelectedLayout` / "new empty layout": reset to the empty document
(current viewport kept) and clear the undo history. -/
def newEmptyLayout (st : FullState) : FullState :=
  ⟨⟨{ makeEmptyEditorState with viewport := st.hist.doc.viewport }, []⟩, st.saved⟩

/-- One engine operation. -/
inductive Step : FullState → FullState → Prop
  | place (st : FullState) (id : Nat) (cell : GridCell)
      (hfresh : ∀ c ∈ st.hist.doc.components, c.id ≠ id) :
      Step st (onHist (placeClick id cell) st)
  | move (st : FullState) (id : Nat) (cell : GridCell) :
      Step st (onHist (finalizeComponentDrag id cell) st)
  | erase (st : FullState) (cell : GridCell) :
      Step st (onHist (eraseClick cell) st)
  | toggleBlocked (st : FullState) (cell : GridCell) :
      Step st (onHist (toggleInvalidClick cell) st)
  | moveBlocked (st : FullState) (fromKey dropCell : GridCell) :
      Step st (onHist (finalizeInvalidDrag fromKey dropCell) st)
  | resize (st : FullState) (colsInput rowsInput : Option ℚ) :
      Step st (onHist (applyGridSize colsInput rowsInput) st)
  | clear (st : FullState) :
      Step st (onHist clearAllT st)
  | undoOp (st : FullState) :
      Step st (onHist undoStep st)
  | save (st : FullState) :
      Step st (saveCurrent st)
  | openL (st : FullState) (raw : RawSnapshot) (hmem : raw ∈ st.saved) :
      Step st (openStored raw st)
  | newLayout (st : FullState) :
      Step st (newEmptyLayout st)
  | camera (st : FullState) (f : Camera → Camera) :
      Step st (onHist (setCameraNU f) st)
  | viewport (st : FullState) (w ht : ℚ) :
      Step st (onHist (setViewportSizeNU w ht) st)
  | tool (st : FullState) (t : EditorTool) :
      Step st (onHist (setToolNU t) st)
  | activeType (st : FullState) (t : ComponentType) :
      Step st (onHist (setActiveComponentTypeNU t) st)
  | selectComp (st : FullState) (id? : Option Nat) :
      Step st (onHist (setSelectedComponentIdNU id?) st)

/-- The engine starts on the empty document with empty history and store. -/
def initialFullState : FullState :=
  ⟨⟨makeEmptyEditorState, []⟩, []⟩

/-- States reachable from the empty document by engine operations. -/
inductive Reachable : FullState → Prop
  | init : Reachable initialFullState
  | step {s t : FullState} : Reachable s → Step s t → Reachable t

/-! ## Sequences of undoable operations (for the undo-symmetry claim)

The typed undoable operations are the provider setters that record history:
`setComponents`, `toggleInvalidCell`, `setInvalidCells`, `setGrid`, and the
generic `setState` (whose call sites always construct fresh objects). -/

/-- One undoable operation from the typed operation set. -/
inductive UndoableOp
  | componentsU (f : List PlacedComponent → List PlacedComponent)
  | toggleU (cell : GridCell)
  | invalidU (f : List GridCell → List GridCell)
  | gridU (cols rows : ℚ)
  | stateU (f : EditorState → EditorState)

/-- Apply one undoable operation (with its history push). -/
def applyUndoable : UndoableOp → HistState → HistState
  | .componentsU f => setComponentsH f
  | .toggleU cell => toggleInvalidCellH cell
  | .invalidU f => setInvalidCellsH f
  | .gridU cols rows => setGridH cols rows
  | .stateU f => setStateH f

/-- Apply a sequence of undoable operations in order. -/
def runOps (ops : List UndoableOp) (h : HistState) : HistState :=
  ops.foldl (fun acc op => applyUndoable op acc) h

/-- Call `undo` `n` times. -/
def undoN : Nat → HistState → HistState
  | 0 => fun h => h
  | n + 1 => fun h => undoStep (undoN n h)

/-! ## Structural validity of raw snapshots, and concrete demonstration states -/

/-- The structural-validation failures rejected by the loader: wrong or
missing version tag, missing grid or non-numeric dimensions, non-array
components, missing camera or non-numeric zoom. -/
def snapshotStructurallyInvalid (raw : RawSnapshot) : Prop :=
  raw.v ≠ some 1 ∨
    raw.grid = none ∨
    (∃ g, raw.grid = some g ∧ (g.cols = none ∨ g.rows = none)) ∨
    raw.components = none ∨
    raw.camera = none ∨
    (∃ cam, raw.camera = some cam ∧ cam.zoom = none)

/-- A structurally corrupt snapshot: a valid version, grid and camera but
`components` is not an array. -/
def corruptRawSnapshot : RawSnapshot where
  v := some 1
  grid := some ⟨some 5, some 5⟩
  components := none
  camera := some ⟨0, 0, some 1⟩
  tool := none
  activeComponentType := none
  selectedComponentId := none
  placeMode := none
  invalidCells := none
  selectedInvalidCellKey := none
  invalidCellLabels := none

/-- A two-step editing trace: place a component, then block a cell. -/
def demoTrace : FullState :=
  onHist (toggleInvalidClick ⟨1, 1⟩) (onHist (placeClick 1 ⟨0, 0⟩) initialFullState)

/-- Three LIGHT components placed in sequence on the empty document. -/
def autoNameTraceA : HistState :=
  placeClick 3 ⟨2, 0⟩ (placeClick 2 ⟨1, 0⟩ (placeClick 1 ⟨0, 0⟩ ⟨makeEmptyEditorState, []⟩))

/-- Two LIGHT components placed in sequence (displayed as `L1`, `L2`). -/
def renameDemoState : EditorState :=
  (placeClick 2 ⟨1, 0⟩ (placeClick 1 ⟨0, 0⟩ ⟨makeEmptyEditorState, []⟩)).doc

/-- Block a cell (an undoable edit, snapshotting the camera at the origin),
then pan the camera (not undoable). -/
def undoCameraDemo : HistState :=
  setCameraNU (fun c => { c with panX := 5 })
    (toggleInvalidClick ⟨1, 1⟩ ⟨initialEditorState, []⟩)

/-- A component at `(4,4)` and a blocked cell at `(2,2)` on the empty grid. -/
def c5demo : HistState :=
  toggleInvalidClick ⟨2, 2⟩ (placeClick 1 ⟨4, 4⟩ ⟨makeEmptyEditorState, []⟩)

/-! ## Helper lemmas: set representation and history -/

theorem mem_setAdd {α : Type} [DecidableEq α] (a b : α) (l : List α) :
    a ∈ setAdd b l ↔ a = b ∨ a ∈ l := by
  unfold setAdd
  split
  · constructor
    · exact Or.inr
    · rintro (rfl | h) <;> assumption
  · simp [or_comm]

theorem mem_setDelete {α : Type} [DecidableEq α] (a b : α) (l : List α) :
    a ∈ setDelete b l ↔ a ∈ l ∧ a ≠ b := by
  unfold setDelete
  simp

theorem mem_pushHistory (x d : EditorState) (p : List EditorState)
    (hx : x ∈ pushHistory d p) : x = d ∨ x ∈ p := by
  unfold pushHistory at hx
  simp only at hx
  split at hx
  · have := List.drop_subset _ _ hx
    rcases List.mem_append.mp this with h | h
    · exact Or.inr h
    · simp at h; exact Or.inl h
  · rcases List.mem_append.mp hx with h | h
    · exact Or.inr h
    · simp at h; exact Or.inl h

theorem pushHistory_of_short (d : EditorState) (p : List EditorState)
    (h : p.length + 1 ≤ HISTORY_LIMIT) : pushHistory d p = p ++ [d] := by
  unfold pushHistory
  simp only [List.length_append, List.length_singleton]
  rw [if_neg (by omega)]

theorem undoStep_concat (d x : EditorState) (p : List EditorState) :
    undoStep ⟨d, p ++ [x]⟩ = ⟨{ x with viewport := d.viewport }, p⟩ := by
  unfold undoStep
  simp

theorem undoStep_viewport (h : HistState) :
    (undoStep h).doc.viewport = h.doc.viewport := by
  unfold undoStep
  split <;> rfl

/-! ## Helper lemmas: `ensureAutoNames` only renames -/

/-- The structural footprint of a component: everything except its names. -/
def compShape (c : PlacedComponent) : Nat × GridCell × ComponentType :=
  (c.id, c.cell, c.type)

theorem assignAutoNames_shape (counters : List (String × Nat))
    (l : List PlacedComponent) :
    (assignAutoNames counters l).map compShape = l.map compShape := by
  induction l generalizing counters with
  | nil => rfl
  | cons c rest ih =>
    unfold assignAutoNames
    split <;> simp [compShape, ih]

theorem ensureAutoNames_shape (l : List PlacedComponent) :
    (ensureAutoNames l).map compShape = l.map compShape :=
  assignAutoNames_shape _ l

theorem mem_ensureAutoNames_shape {c' : PlacedComponent} {l : List PlacedComponent}
    (h : c' ∈ ensureAutoNames l) :
    ∃ c ∈ l, c.id = c'.id ∧ c.cell = c'.cell ∧ c.type = c'.type := by
  have hm : compShape c' ∈ (ensureAutoNames l).map compShape := List.mem_map_of_mem _ h
  rw [ensureAutoNames_shape] at hm
  obtain ⟨c, hc, hsh⟩ := List.mem_map.mp hm
  have h1 := congrArg Prod.fst hsh
  have h2 := congrArg (fun p => p.2.1) hsh
  have h3 := congrArg (fun p => p.2.2) hsh
  exact ⟨c, hc, h1, h2, h3⟩

theorem ensureAutoNames_pairwise_cell {l : List PlacedComponent}
    (h : l.Pairwise (fun a b => a.cell ≠ b.cell)) :
    (ensureAutoNames l).Pairwise (fun a b => a.cell ≠ b.cell) := by
  have hiff :
      ((ensureAutoNames l).map compShape).Pairwise
          (fun a b => a.2.1 ≠ b.2.1) ↔
        (l.map compShape).Pairwise (fun a b => a.2.1 ≠ b.2.1) := by
    rw [ensureAutoNames_shape]
  rw [List.pairwise_map, List.pairwise_map] at hiff
  exact hiff.mpr (by simpa [compShape] using h)

theorem ensureAutoNames_pairwise_id {l : List PlacedComponent}
    (h : l.Pairwise (fun a b => a.id ≠ b.id)) :
    (ensureAutoNames l).Pairwise (fun a b => a.id ≠ b.id) := by
  have hiff :
      ((ensureAutoNames l).map compShape).Pairwise (fun a b => a.1 ≠ b.1) ↔
        (l.map compShape).Pairwise (fun a b => a.1 ≠ b.1) := by
    rw [ensureAutoNames_shape]
  rw [List.pairwise_map, List.pairwise_map] at hiff
  exact hiff.mpr (by simpa [compShape] using h)

/-! ## The document invariant -/

/-- The consistency invariant of a component list against a blocked set:
no two components share a cell, ids are pairwise distinct, and no component
sits on a blocked cell. -/
def CompInv (comps : List PlacedComponent) (invalid : List GridCell) : Prop :=
  comps.Pairwise (fun a b => a.cell ≠ b.cell) ∧
    comps.Pairwise (fun a b => a.id ≠ b.id) ∧
    ∀ c ∈ comps, c.cell ∉ invalid

/-- The invariant of a document. -/
def DocInv (s : EditorState) : Prop :=
  CompInv s.components s.invalidCells

/-- Invariant of the live document together with every undo snapshot. -/
def HistInv (h : HistState) : Prop :=
  DocInv h.doc ∧ ∀ d ∈ h.past, DocInv d

/-- Invariant of a full engine state: the live document, every undo snapshot
and every stored snapshot that restores successfully. -/
def FullInv (st : FullState) : Prop :=
  HistInv st.hist ∧
    ∀ raw ∈ st.saved, ∀ r, fromPersistedEditorState raw = some r → DocInv r

theorem CompInv.filter {comps : List PlacedComponent} {invalid : List GridCell}
    (h : CompInv comps invalid) (p : PlacedComponent → Bool)
    (invalid' : List GridCell)
    (hinv : ∀ c ∈ comps, p c → c.cell ∉ invalid') :
    CompInv (comps.filter p) invalid' := by
  obtain ⟨hcell, hid, hoff⟩ := h
  refine ⟨hcell.filter p, hid.filter p, ?_⟩
  intro c hc
  obtain ⟨hcm, hcp⟩ := List.mem_filter.mp hc
  exact hinv c hcm hcp

theorem pushMut_histInv {f : EditorState → EditorState} {h : HistState}
    (hh : HistInv h) (hf : DocInv (f h.doc)) : HistInv (pushMut f h) := by
  refine ⟨hf, ?_⟩
  intro d hd
  rcases mem_pushHistory d h.doc h.past hd with rfl | hdp
  · exact hh.1
  · exact hh.2 d hdp

theorem plainMut_histInv {f : EditorState → EditorState} {h : HistState}
    (hh : HistInv h) (hf : DocInv (f h.doc)) : HistInv (plainMut f h) :=
  ⟨hf, hh.2⟩

/-- A transition that keeps components and blocked cells keeps the invariant. -/
theorem DocInv_of_same_fields {s t : EditorState}
    (hc : t.components = s.components) (hi : t.invalidCells = s.invalidCells)
    (h : DocInv s) : DocInv t := by
  unfold DocInv CompInv at *
  rw [hc, hi]
  exact h

/-! ## Per-operation invariant preservation -/

theorem applySetInvalidCells_docInv (f : List GridCell → List GridCell)
    {s : EditorState} (h : DocInv s) : DocInv (applySetInvalidCells f s) := by
  obtain ⟨hcell, hid, _⟩ := h
  unfold applySetInvalidCells DocInv CompInv
  simp only
  refine ⟨hcell.filter _, hid.filter _, ?_⟩
  intro c hc
  have := (List.mem_filter.mp hc).2
  simpa using this

theorem toggleInvalidCellD_docInv (cell : GridCell) {s : EditorState}
    (h : DocInv s) : DocInv (toggleInvalidCellD cell s) := by
  obtain ⟨hcell, hid, hoff⟩ := h
  unfold toggleInvalidCellD DocInv CompInv
  simp only
  by_cases hmem : cell ∈ s.invalidCells
  · -- the cell was blocked: it becomes unblocked, components unchanged
    simp only [hmem, not_true_eq_false, if_false, ite_false]
    refine ⟨hcell, hid, ?_⟩
    intro c hc hmem'
    exact hoff c hc ((mem_setDelete _ _ _).mp hmem').1
  · -- the cell becomes blocked: components on it are evicted
    simp only [hmem, not_false_eq_true, if_true, ite_true]
    refine ⟨hcell.filter _, hid.filter _, ?_⟩
    intro c hc hmem'
    obtain ⟨hcm, hcp⟩ := List.mem_filter.mp hc
    rcases (mem_setAdd _ _ _).mp hmem' with heq | hin
    · simp [heq] at hcp
    · exact hoff c hcm hin

theorem setGridD_docInv (cols rows : ℚ) {s : EditorState} (h : DocInv s) :
    DocInv (setGridD cols rows s) := by
  obtain ⟨hcell, hid, _⟩ := h
  unfold setGridD DocInv CompInv
  simp only
  refine ⟨hcell.filter _, hid.filter _, ?_⟩
  intro c hc
  have := (List.mem_filter.mp hc).2
  simp only [Bool.and_eq_true, decide_eq_true_eq] at this
  simpa using this.2

theorem applySetComponents_docInv (f : List PlacedComponent → List PlacedComponent)
    {s : EditorState} (hf : CompInv (f s.components) s.invalidCells) :
    DocInv (applySetComponents f s) := by
  obtain ⟨hcell, hid, hoff⟩ := hf
  unfold applySetComponents DocInv CompInv
  simp only
  refine ⟨ensureAutoNames_pairwise_cell hcell, ensureAutoNames_pairwise_id hid, ?_⟩
  intro c hc
  obtain ⟨c₀, hc₀, _, hcellEq, _⟩ := mem_ensureAutoNames_shape hc
  rw [← hcellEq]
  exact hoff c₀ hc₀

theorem canDropOnCell_iff (s : EditorState) (cell : GridCell) (movingId : Nat) :
    canDropOnCell s cell movingId = true ↔
      isWithinGrid cell s.grid = true ∧ cell ∉ s.invalidCells ∧
        ∀ c ∈ s.components, c.id ≠ movingId → c.cell ≠ cell := by
  unfold canDropOnCell
  simp only [Bool.and_eq_true, Bool.not_eq_true', List.any_eq_false,
    Bool.and_eq_false_iff, decide_eq_false_iff_not, decide_eq_true_eq, not_not,
    and_assoc]
  constructor
  · rintro ⟨hw, hinv, hocc⟩
    refine ⟨hw, by simpa using hinv, ?_⟩
    intro c hc hid hcell
    exact hocc c hc ⟨hid, hcell⟩
  · rintro ⟨hw, hinv, hocc⟩
    refine ⟨hw, by simpa using hinv, ?_⟩
    intro c hc hcon
    exact hocc c hc hcon.1 hcon.2

theorem clearSelInvalid_histInv {h : HistState} (hh : HistInv h) :
    HistInv (clearSelInvalid h) :=
  pushMut_histInv hh (DocInv_of_same_fields rfl rfl hh.1)

theorem placeClick_histInv (id : Nat) (cell : GridCell) {h : HistState}
    (hh : HistInv h) (hfresh : ∀ c ∈ h.doc.components, c.id ≠ id) :
    HistInv (placeClick id cell h) := by
  unfold placeClick
  split
  · exact hh
  split
  · exact hh
  rename_i hout hinv
  have h1 : HistInv (clearSelInvalid h) := clearSelInvalid_histInv hh
  refine pushMut_histInv h1 (applySetComponents_docInv _ ?_)
  split
  · exact hh.1
  rename_i hnotAny
  obtain ⟨hcell, hid, hoff⟩ := hh.1
  have hfree : ∀ c ∈ h.doc.components, c.cell ≠ cell := by
    intro c hc
    have := List.any_eq_false.mp (Bool.not_eq_true _ ▸ hnotAny) c hc
    simpa using this
  refine ⟨?_, ?_, ?_⟩
  · rw [List.pairwise_append]
    exact ⟨hcell, List.pairwise_singleton _ _,
      fun a ha b hb => by simp at hb; subst hb; exact hfree a ha⟩
  · rw [List.pairwise_append]
    exact ⟨hid, List.pairwise_singleton _ _,
      fun a ha b hb => by simp at hb; subst hb; exact hfresh a ha⟩
  · intro c hc
    rcases List.mem_append.mp hc with hcm | hcm
    · exact hoff c hcm
    · simp at hcm
      subst hcm
      exact hinv

theorem finalizeComponentDrag_histInv (movingId : Nat) (dropCell : GridCell)
    {h : HistState} (hh : HistInv h) :
    HistInv (finalizeComponentDrag movingId dropCell h) := by
  unfold finalizeComponentDrag
  split
  · rename_i hdrop
    obtain ⟨hw, hinvd, hocc⟩ := (canDropOnCell_iff _ _ _).mp hdrop
    obtain ⟨hcell, hid, hoff⟩ := hh.1
    refine pushMut_histInv hh (applySetComponents_docInv _ ?_)
    refine ⟨?_, ?_, ?_⟩
    · rw [List.pairwise_map]
      refine List.Pairwise.imp_of_mem ?_ (hcell.and hid)
      intro a b ha hb hab
      obtain ⟨habc, habi⟩ := hab
      by_cases haid : a.id = movingId
      · have hbid : ¬ b.id = movingId := fun hb' => habi (haid.trans hb'.symm)
        simp only [haid, if_pos rfl, if_neg hbid]
        exact fun hEq => hocc b hb hbid (by simpa using hEq.symm)
      · by_cases hbid : b.id = movingId
        · simp only [if_neg haid, if_pos hbid]
          exact fun hEq => hocc a ha haid (by simpa using hEq)
        · simpa [if_neg haid, if_neg hbid] using habc
    · rw [List.pairwise_map]
      refine List.Pairwise.imp_of_mem ?_ hid
      intro a b _ _ hab
      by_cases haid : a.id = movingId <;> by_cases hbid : b.id = movingId
      · exact absurd (haid.trans hbid.symm) hab
      · simp only [if_pos haid, if_neg hbid]
        exact fun hEq => hbid (by simpa [haid] using hEq.symm)
      · simp only [if_neg haid, if_pos hbid]
        exact fun hEq => haid (by simpa [hbid] using hEq)
      · simpa [if_neg haid, if_neg hbid] using hab
    · intro c hc
      obtain ⟨c₀, hc₀, heq⟩ := List.mem_map.mp hc
      by_cases hcid : c₀.id = movingId
      · rw [if_pos hcid] at heq
        rw [← heq]
        exact hinvd
      · rw [if_neg hcid] at heq
        rw [← heq]
        exact hoff c₀ hc₀
  · exact hh

theorem eraseStaleSelFix_histInv (k : GridCell) (old : List GridCell)
    {h : HistState} (hh : HistInv h) : HistInv (eraseStaleSelFix k old h) := by
  unfold eraseStaleSelFix
  split
  · exact clearSelInvalid_histInv hh
  · exact hh

theorem eraseInvalidSelFix_histInv (cell : GridCell) (sel : Option GridCell)
    (old : List GridCell) {h : HistState} (hh : HistInv h) :
    HistInv (eraseInvalidSelFix cell sel old h) := by
  unfold eraseInvalidSelFix
  cases sel with
  | none => exact hh
  | some k =>
    refine eraseStaleSelFix_histInv _ _ ?_
    split
    · exact clearSelInvalid_histInv hh
    · exact hh

theorem eraseClick_histInv (cell : GridCell) {h : HistState} (hh : HistInv h) :
    HistInv (eraseClick cell h) := by
  unfold eraseClick
  split
  · exact hh
  split
  · -- a component is erased
    have h1 : HistInv
        (setComponentsH (fun prev => prev.filter (fun c => c.cell ≠ cell)) h) := by
      refine pushMut_histInv hh (applySetComponents_docInv _ ?_)
      obtain ⟨hcell, hid, hoff⟩ := hh.1
      exact CompInv.filter ⟨hcell, hid, hoff⟩ _ _ (fun c hc _ => hoff c hc)
    cases h.doc.selectedComponentId with
    | none => exact h1
    | some i => exact plainMut_histInv h1 (DocInv_of_same_fields rfl rfl h1.1)
  · -- a blocked marker is erased
    have h1 : HistInv (setInvalidCellsH
        (fun prev => if cell ∉ prev then prev else setDelete cell prev) h) :=
      pushMut_histInv hh (applySetInvalidCells_docInv _ hh.1)
    exact eraseInvalidSelFix_histInv cell _ _ h1

theorem toggleInvalidClick_histInv (cell : GridCell) {h : HistState}
    (hh : HistInv h) : HistInv (toggleInvalidClick cell h) := by
  unfold toggleInvalidClick
  split
  · exact hh
  have h1 : HistInv (toggleInvalidCellH cell h) :=
    pushMut_histInv hh (toggleInvalidCellD_docInv cell hh.1)
  have h2 : HistInv (setSelectedComponentIdNU none (toggleInvalidCellH cell h)) :=
    plainMut_histInv h1 (DocInv_of_same_fields rfl rfl h1.1)
  exact pushMut_histInv h2 (DocInv_of_same_fields rfl rfl h2.1)

theorem finalizeInvalidDrag_histInv (fromKey dropCell : GridCell) {h : HistState}
    (hh : HistInv h) : HistInv (finalizeInvalidDrag fromKey dropCell h) := by
  unfold finalizeInvalidDrag
  split
  · obtain ⟨hcell, hid, hoff⟩ := hh.1
    have h1 : HistInv (setInvalidCellsH
        (fun _ => setAdd dropCell (setDelete fromKey h.doc.invalidCells)) h) :=
      pushMut_histInv hh (applySetInvalidCells_docInv _ hh.1)
    have h2 : HistInv (setComponentsH
        (fun _ => h.doc.components.filter (fun c => c.cell ≠ dropCell))
        (setInvalidCellsH
          (fun _ => setAdd dropCell (setDelete fromKey h.doc.invalidCells)) h)) := by
      refine pushMut_histInv h1 (applySetComponents_docInv _ ?_)
      refine ⟨hcell.filter _, hid.filter _, ?_⟩
      intro c hc
      obtain ⟨hcm, hcp⟩ := List.mem_filter.mp hc
      show c.cell ∉ _
      intro hmem
      have hmem' : c.cell ∈ setAdd dropCell (setDelete fromKey h.doc.invalidCells) :=
        hmem
      rcases (mem_setAdd _ _ _).mp hmem' with heq | hin
      · simp [heq] at hcp
      · exact hoff c hcm ((mem_setDelete _ _ _).mp hin).1
    have h3 : HistInv (setSelectedComponentIdNU none _) :=
      plainMut_histInv h2 (DocInv_of_same_fields rfl rfl h2.1)
    exact pushMut_histInv h3 (DocInv_of_same_fields rfl rfl h3.1)
  · exact pushMut_histInv hh (DocInv_of_same_fields rfl rfl hh.1)

theorem applyGridSize_histInv (ci ri : Option ℚ) {h : HistState}
    (hh : HistInv h) : HistInv (applyGridSize ci ri h) :=
  pushMut_histInv hh (setGridD_docInv _ _ hh.1)

theorem clearAllT_histInv {h : HistState} (hh : HistInv h) :
    HistInv (clearAllT h) := by
  refine pushMut_histInv hh ?_
  exact ⟨List.Pairwise.nil, List.Pairwise.nil, by simp⟩

theorem mem_of_getLast?_eq {α : Type} {l : List α} {a : α}
    (h : l.getLast? = some a) : a ∈ l := by
  induction l with
  | nil => simp at h
  | cons x xs ih =>
    cases xs with
    | nil =>
      simp only [List.getLast?_singleton, Option.some.injEq] at h
      simp [h]
    | cons y ys =>
      rw [List.getLast?_cons_cons] at h
      exact List.mem_cons_of_mem _ (ih h)

theorem undoStep_histInv {h : HistState} (hh : HistInv h) :
    HistInv (undoStep h) := by
  unfold undoStep
  split
  · exact hh
  · rename_i prevState hlast
    have hmem : prevState ∈ h.past := mem_of_getLast?_eq hlast
    refine ⟨?_, ?_⟩
    · exact DocInv_of_same_fields rfl rfl (hh.2 prevState hmem)
    · intro d hd
      exact hh.2 d ((List.dropLast_sublist h.past).subset hd)

theorem mem_sanitizeCellStep {grid : GridSize} {acc : List GridCell}
    {k? : Option GridCell} {x : GridCell} (hx : x ∈ sanitizeCellStep grid acc k?) :
    x ∈ acc ∨ k? = some x := by
  cases k? with
  | none => exact Or.inl hx
  | some c =>
    have hx' : x ∈
        (if (decide (c.x < 0) || decide (c.y < 0) || decide (grid.cols ≤ c.x) ||
            decide (grid.rows ≤ c.y)) = true then acc else setAdd c acc) := hx
    by_cases hc :
        (decide (c.x < 0) || decide (c.y < 0) || decide (grid.cols ≤ c.x) ||
          decide (grid.rows ≤ c.y)) = true
    · rw [if_pos hc] at hx'
      exact Or.inl hx'
    · rw [if_neg hc] at hx'
      rcases (mem_setAdd _ _ _).mp hx' with rfl | hin
      · exact Or.inr rfl
      · exact Or.inl hin

theorem mem_sanitizeInvalidCellsD {ks : List (Option GridCell)} {grid : GridSize}
    {x : GridCell} (hx : x ∈ sanitizeInvalidCellsD (some ks) grid) :
    some x ∈ ks := by
  unfold sanitizeInvalidCellsD at hx
  suffices hgen : ∀ (l : List (Option GridCell)) (acc : List GridCell),
      x ∈ l.foldl (sanitizeCellStep grid) acc → x ∈ acc ∨ some x ∈ l by
    rcases hgen ks [] hx with h | h
    · simp at h
    · exact h
  intro l
  induction l with
  | nil => exact fun acc h => Or.inl h
  | cons k? rest ih =>
    intro acc h
    rw [List.foldl_cons] at h
    rcases ih _ h with hacc | hrest
    · rcases mem_sanitizeCellStep hacc with hin | rfl
      · exact Or.inl hin
      · exact Or.inr (List.mem_cons_self _ _)
    · exact Or.inr (List.mem_cons_of_mem _ hrest)

/-- The empty document satisfies the invariant. -/
theorem makeEmpty_docInv : DocInv makeEmptyEditorState :=
  ⟨List.Pairwise.nil, List.Pairwise.nil,
    fun c hc => absurd hc (List.not_mem_nil c)⟩

/-- Decoding an encoded snapshot, spelled out. -/
theorem decode_encode_eq (s : EditorState) :
    fromPersistedEditorState (toPersistedEditorState s) =
      some
        { initialEditorState with
          grid := ⟨max 1 ⌊(s.grid.cols : ℚ)⌋, max 1 ⌊(s.grid.rows : ℚ)⌋⟩
          invalidCells :=
            sanitizeInvalidCellsD (some (s.invalidCells.map some))
              ⟨max 1 ⌊(s.grid.cols : ℚ)⌋, max 1 ⌊(s.grid.rows : ℚ)⌋⟩
          components := ensureAutoNames s.components
          camera := ⟨s.camera.panX, s.camera.panY, s.camera.zoom⟩
          tool := s.tool
          activeComponentType := s.activeComponentType
          selectedComponentId := s.selectedComponentId
          placeMode := s.placeMode
          viewport := ⟨0, 0⟩
          selectedInvalidCellKey :=
            match s.selectedInvalidCellKey with
            | some k =>
              if k ∈ sanitizeInvalidCellsD (some (s.invalidCells.map some))
                  ⟨max 1 ⌊(s.grid.cols : ℚ)⌋, max 1 ⌊(s.grid.rows : ℚ)⌋⟩ then
                some k
              else none
            | none => none
          invalidCellLabels :=
            sanitizeInvalidCellLabelsRawD
              (some (s.invalidCellLabels.map (fun e => (e.1, some e.2))))
              ⟨max 1 ⌊(s.grid.cols : ℚ)⌋, max 1 ⌊(s.grid.rows : ℚ)⌋⟩
              (sanitizeInvalidCellsD (some (s.invalidCells.map some))
                ⟨max 1 ⌊(s.grid.cols : ℚ)⌋, max 1 ⌊(s.grid.rows : ℚ)⌋⟩) } := rfl

theorem decode_encode_docInv {s : EditorState} (hs : DocInv s) :
    ∀ r, fromPersistedEditorState (toPersistedEditorState s) = some r → DocInv r := by
  intro r hr
  obtain ⟨hcell, hid, hoff⟩ := hs
  rw [decode_encode_eq] at hr
  obtain rfl := Option.some.inj hr
  refine ⟨ensureAutoNames_pairwise_cell hcell, ensureAutoNames_pairwise_id hid, ?_⟩
  intro c hc hmem
  obtain ⟨c₀, hc₀, _, hcellEq, _⟩ := mem_ensureAutoNames_shape hc
  have hmm : some c.cell ∈ s.invalidCells.map some := mem_sanitizeInvalidCellsD hmem
  obtain ⟨y, hy, hyeq⟩ := List.mem_map.mp hmm
  obtain rfl := Option.some.inj hyeq
  rw [← hcellEq] at hy
  exact hoff c₀ hc₀ hy

theorem step_fullInv {s t : FullState} (hs : FullInv s) (hst : Step s t) :
    FullInv t := by
  cases hst with
  | place id cell hfresh => exact ⟨placeClick_histInv id cell hs.1 hfresh, hs.2⟩
  | move id cell => exact ⟨finalizeComponentDrag_histInv id cell hs.1, hs.2⟩
  | erase cell => exact ⟨eraseClick_histInv cell hs.1, hs.2⟩
  | toggleBlocked cell => exact ⟨toggleInvalidClick_histInv cell hs.1, hs.2⟩
  | moveBlocked fromKey dropCell =>
    exact ⟨finalizeInvalidDrag_histInv fromKey dropCell hs.1, hs.2⟩
  | resize ci ri => exact ⟨applyGridSize_histInv ci ri hs.1, hs.2⟩
  | clear => exact ⟨clearAllT_histInv hs.1, hs.2⟩
  | undoOp => exact ⟨undoStep_histInv hs.1, hs.2⟩
  | save =>
    refine ⟨hs.1, ?_⟩
    intro raw hraw r hr
    rcases List.mem_cons.mp hraw with rfl | hmem
    · exact decode_encode_docInv hs.1.1 r hr
    · exact hs.2 raw hmem r hr
  | openL raw hmem =>
    refine ⟨⟨?_, fun d hd => absurd hd (List.not_mem_nil d)⟩, hs.2⟩
    show DocInv (openSnapshot raw s.hist.doc)
    unfold openSnapshot
    cases hdec : fromPersistedEditorState raw with
    | none => exact DocInv_of_same_fields rfl rfl makeEmpty_docInv
    | some r => exact DocInv_of_same_fields rfl rfl (hs.2 raw hmem r hdec)
  | newLayout =>
    exact ⟨⟨DocInv_of_same_fields rfl rfl makeEmpty_docInv,
      fun d hd => absurd hd (List.not_mem_nil d)⟩, hs.2⟩
  | camera f =>
    exact ⟨plainMut_histInv hs.1 (DocInv_of_same_fields rfl rfl hs.1.1), hs.2⟩
  | viewport w ht =>
    refine ⟨plainMut_histInv hs.1 ?_, hs.2⟩
    split
    · exact hs.1.1
    · exact DocInv_of_same_fields rfl rfl hs.1.1
  | tool t' =>
    exact ⟨plainMut_histInv hs.1 (DocInv_of_same_fields rfl rfl hs.1.1), hs.2⟩
  | activeType t' =>
    exact ⟨plainMut_histInv hs.1 (DocInv_of_same_fields rfl rfl hs.1.1), hs.2⟩
  | selectComp id? =>
    exact ⟨plainMut_histInv hs.1 (DocInv_of_same_fields rfl rfl hs.1.1), hs.2⟩

theorem reachable_fullInv {st : FullState} (h : Reachable st) : FullInv st := by
  induction h with
  | init =>
    refine ⟨⟨makeEmpty_docInv, ?_⟩, ?_⟩
    · intro d hd
      exact absurd hd (List.not_mem_nil d)
    · intro raw hraw
      exact absurd hraw (List.not_mem_nil raw)
  | step hr hstep ih => exact step_fullInv ih hstep

/-! ## Undo symmetry machinery -/

/-- The document transition of one undoable operation (without the push). -/
def applyUndoableDoc : UndoableOp → EditorState → EditorState
  | .componentsU f => applySetComponents f
  | .toggleU cell => toggleInvalidCellD cell
  | .invalidU f => applySetInvalidCells f
  | .gridU cols rows => setGridD cols rows
  | .stateU f => f

theorem applyUndoable_eq (op : UndoableOp) (h : HistState) :
    applyUndoable op h = ⟨applyUndoableDoc op h.doc, pushHistory h.doc h.past⟩ := by
  cases op <;> rfl

/-- Applying `n ≤ 50` undoable operations and then undoing `n` times restores
the starting document exactly, up to the viewport, and restores the starting
undo stack, provided the stack has room for the `n` snapshots. -/
theorem runOps_undoN_restore :
    ∀ (ops : List UndoableOp) (d : EditorState) (p : List EditorState),
      p.length + ops.length ≤ HISTORY_LIMIT →
      ∃ v : Viewport,
        undoN ops.length (runOps ops ⟨d, p⟩) = ⟨{ d with viewport := v }, p⟩ := by
  intro ops
  induction ops with
  | nil => exact fun d p _ => ⟨d.viewport, rfl⟩
  | cons op rest ih =>
    intro d p hlen
    have hpush : pushHistory d p = p ++ [d] :=
      pushHistory_of_short d p (by simp only [List.length_cons] at hlen; omega)
    have hstep : runOps (op :: rest) ⟨d, p⟩ =
        runOps rest ⟨applyUndoableDoc op d, p ++ [d]⟩ := by
      simp only [runOps, List.foldl_cons]
      rw [applyUndoable_eq]
      simp only [hpush]
    obtain ⟨v, hv⟩ := ih (applyUndoableDoc op d) (p ++ [d])
      (by
        simp only [List.length_cons, List.length_append, List.length_nil] at hlen ⊢
        omega)
    refine ⟨v, ?_⟩
    show undoStep (undoN rest.length (runOps (op :: rest) ⟨d, p⟩)) = _
    rw [hstep, hv]
    exact undoStep_concat _ _ _

/-! ## Decimal rendering / parsing round-trip -/

theorem decVal_decChar {d : Nat} (h : d < 10) : decVal (decChar d) = d := by
  interval_cases d <;> rfl

theorem decChar_isDigit {d : Nat} (h : d < 10) : (decChar d).isDigit = true := by
  interval_cases d <;> decide

theorem digitsVal_append (l : List Char) (c : Char) :
    digitsVal (l ++ [c]) = digitsVal l * 10 + decVal c := by
  unfold digitsVal
  rw [List.foldl_append]
  rfl

theorem natDigitsAux_spec :
    ∀ fuel n : Nat, n < fuel →
      natDigitsAux fuel n ≠ [] ∧
        (∀ c ∈ natDigitsAux fuel n, c.isDigit = true) ∧
        digitsVal (natDigitsAux fuel n) = n := by
  intro fuel
  induction fuel with
  | zero => intro n h; omega
  | succ f ih =>
    intro n h
    unfold natDigitsAux
    by_cases h10 : n < 10
    · rw [if_pos h10]
      refine ⟨by simp, ?_, ?_⟩
      · intro c hc
        simp only [List.mem_singleton] at hc
        subst hc
        exact decChar_isDigit h10
      · show digitsVal [decChar n] = n
        have : digitsVal [decChar n] = 0 * 10 + decVal (decChar n) := rfl
        rw [this, decVal_decChar h10]
        omega
    · rw [if_neg h10]
      have hdiv : n / 10 < f := by omega
      obtain ⟨hne, hdig, hval⟩ := ih (n / 10) hdiv
      refine ⟨by simp [hne], ?_, ?_⟩
      · intro c hc
        rcases List.mem_append.mp hc with h1 | h1
        · exact hdig c h1
        · simp only [List.mem_singleton] at h1
          subst h1
          exact decChar_isDigit (Nat.mod_lt n (by omega))
      · rw [digitsVal_append, hval, decVal_decChar (Nat.mod_lt n (by omega))]
        omega

theorem natDigits_ne_nil (n : Nat) : natDigits n ≠ [] :=
  (natDigitsAux_spec (n + 1) n (Nat.lt_succ_self n)).1

theorem natDigits_all_digits (n : Nat) : ∀ c ∈ natDigits n, c.isDigit = true :=
  (natDigitsAux_spec (n + 1) n (Nat.lt_succ_self n)).2.1

theorem digitsVal_natDigits (n : Nat) : digitsVal (natDigits n) = n :=
  (natDigitsAux_spec (n + 1) n (Nat.lt_succ_self n)).2.2

theorem dropWhile_of_all_false {α : Type} {p : α → Bool} :
    ∀ l : List α, (∀ c ∈ l, p c = false) → l.dropWhile p = l := by
  intro l h
  cases l with
  | nil => rfl
  | cons c cs =>
    rw [List.dropWhile_cons_of_neg]
    simp [h c (List.mem_cons_self c cs)]

theorem trimWs_of_noWs (l : List Char) (h : ∀ c ∈ l, isWs c = false) :
    trimWs l = l := by
  unfold trimWs
  rw [dropWhile_of_all_false l h,
    dropWhile_of_all_false l.reverse (fun c hc => h c (List.mem_reverse.mp hc)),
    List.reverse_reverse]

theorem takeWhile_of_all_true {α : Type} {p : α → Bool} :
    ∀ l : List α, (∀ c ∈ l, p c = true) → l.takeWhile p = l := by
  intro l
  induction l with
  | nil => exact fun _ => rfl
  | cons c cs ih =>
    intro h
    rw [List.takeWhile_cons_of_pos (h c (List.mem_cons_self c cs))]
    rw [ih (fun x hx => h x (List.mem_cons_of_mem c hx))]

theorem dropWhile_of_all_true {α : Type} {p : α → Bool} :
    ∀ l : List α, (∀ c ∈ l, p c = true) → l.dropWhile p = [] := by
  intro l
  induction l with
  | nil => exact fun _ => rfl
  | cons c cs ih =>
    intro h
    rw [List.dropWhile_cons_of_pos (h c (List.mem_cons_self c cs))]
    exact ih (fun x hx => h x (List.mem_cons_of_mem c hx))

theorem parseUnsignedDec_of_digits (l : List Char) (hne : l ≠ [])
    (hd : ∀ c ∈ l, c.isDigit = true) :
    parseUnsignedDec l = some (digitsVal l : ℚ) := by
  unfold parseUnsignedDec
  rw [takeWhile_of_all_true l hd, dropWhile_of_all_true l hd]
  simp [hne]

theorem isWs_false_of_isDigit {c : Char} (h : c.isDigit = true) :
    isWs c = false := by
  by_contra hne
  have hws : isWs c = true := by
    revert hne
    cases isWs c <;> simp
  unfold isWs at hws
  simp only [Bool.or_eq_true, decide_eq_true_eq] at hws
  rcases hws with ((h1 | h1) | h1) | h1 <;> (subst h1; exact absurd h (by decide))

theorem jsNumberDec_natDigits (n : Nat) :
    jsNumberDec ⟨natDigits n⟩ = some (n : ℚ) := by
  have htoList : (String.mk (natDigits n)).toList = natDigits n := rfl
  have htrim : trimWs (natDigits n) = natDigits n :=
    trimWs_of_noWs _ (fun c hc => isWs_false_of_isDigit (natDigits_all_digits n c hc))
  obtain ⟨c, cs, hcons⟩ := List.exists_cons_of_ne_nil (natDigits_ne_nil n)
  have hcd : c.isDigit = true := by
    apply natDigits_all_digits n
    rw [hcons]
    exact List.mem_cons_self c cs
  have hcm : ¬ c = '-' := by
    intro h1
    subst h1
    exact absurd hcd (by decide)
  have hcp : ¬ c = '+' := by
    intro h1
    subst h1
    exact absurd hcd (by decide)
  unfold jsNumberDec
  rw [htoList, htrim, hcons]
  show (if c = '-' then _ else if c = '+' then _ else parseUnsignedDec (c :: cs)) = _
  rw [if_neg hcm, if_neg hcp, ← hcons,
    parseUnsignedDec_of_digits _ (natDigits_ne_nil n) (natDigits_all_digits n),
    digitsVal_natDigits]

theorem jsNumberDec_intDecString (i : Int) :
    jsNumberDec (intDecString i) = some (i : ℚ) := by
  unfold intDecString
  by_cases hneg : i < 0
  · rw [if_pos hneg]
    have hdata : ("-" ++ natDecString i.natAbs).toList = '-' :: natDigits i.natAbs := by
      show ("-" ++ natDecString i.natAbs).data = _
      rw [String.data_append]
      rfl
    have htrim : trimWs ('-' :: natDigits i.natAbs) = '-' :: natDigits i.natAbs := by
      apply trimWs_of_noWs
      intro c hc
      rcases List.mem_cons.mp hc with rfl | hc2
      · rfl
      · exact isWs_false_of_isDigit (natDigits_all_digits _ c hc2)
    unfold jsNumberDec
    rw [hdata, htrim]
    show (if '-' = '-' then _ else _) = _
    rw [if_pos rfl,
      parseUnsignedDec_of_digits _ (natDigits_ne_nil _) (natDigits_all_digits _),
      digitsVal_natDigits]
    show some (-(i.natAbs : ℚ)) = some (i : ℚ)
    congr 1
    rw [Int.cast_natAbs, abs_of_neg hneg]
    push_cast
    ring
  · rw [if_neg hneg]
    rw [show natDecString i.natAbs = String.mk (natDigits i.natAbs) from rfl,
      jsNumberDec_natDigits]
    congr 1
    rw [Int.cast_natAbs, abs_of_nonneg (le_of_not_lt hneg)]

theorem splitComma_cons (c : Char) (rest : List Char) :
    splitComma (c :: rest) =
      if c = ',' then [] :: splitComma rest
      else
        match splitComma rest with
        | [] => [[c]]
        | h :: t => (c :: h) :: t := rfl

theorem splitComma_append_comma :
    ∀ (a b : List Char), ',' ∉ a →
      splitComma (a ++ ',' :: b) = a :: splitComma b := by
  intro a
  induction a with
  | nil =>
    intro b _
    show splitComma (',' :: b) = [] :: splitComma b
    rw [splitComma_cons, if_pos rfl]
  | cons c cs ih =>
    intro b hna
    have hc : ¬ c = ',' := fun h => hna (h ▸ List.mem_cons_self c cs)
    show splitComma (c :: (cs ++ ',' :: b)) = (c :: cs) :: splitComma b
    rw [splitComma_cons, if_neg hc, ih b (fun h => hna (List.mem_cons_of_mem c h))]

theorem comma_not_mem_intDecString (i : Int) : ',' ∉ (intDecString i).toList := by
  intro hmem
  unfold intDecString at hmem
  have hdig : (',' : Char).isDigit = true := by
    split at hmem
    · have hdata : ("-" ++ natDecString i.natAbs).toList = '-' :: natDigits i.natAbs := by
        show ("-" ++ natDecString i.natAbs).data = _
        rw [String.data_append]
        rfl
      rw [hdata] at hmem
      rcases List.mem_cons.mp hmem with h1 | h1
      · exact absurd h1 (by decide)
      · exact natDigits_all_digits _ _ h1
    · exact natDigits_all_digits _ _ hmem
  exact absurd hdig (by decide)

theorem cellKey_toList (c : GridCell) :
    (cellKey c).toList =
      (intDecString c.x).toList ++ ',' :: (intDecString c.y).toList := by
  show (cellKey c).data = (intDecString c.x).data ++ ',' :: (intDecString c.y).data
  unfold cellKey
  rw [String.data_append, String.data_append, List.append_assoc]
  congr 1

theorem splitComma_no_comma :
    ∀ l : List Char, ',' ∉ l → splitComma l = [l] := by
  intro l
  induction l with
  | nil => exact fun _ => rfl
  | cons c cs ih =>
    intro h
    have hc : ¬ c = ',' := fun he => h (he ▸ List.mem_cons_self c cs)
    rw [splitComma_cons, if_neg hc, ih (fun hm => h (List.mem_cons_of_mem c hm))]

/-- Canonical cell keys round-trip: `parseCellKey (cellKey c) = some c`.  This
is the fact that lets the document layer treat the blocked-cell string set as
a set of integer cells. -/
theorem parseCellKey_cellKey (c : GridCell) : parseCellKey (cellKey c) = some c := by
  have hsplit : splitComma (cellKey c).toList =
      [(intDecString c.x).toList, (intDecString c.y).toList] := by
    rw [cellKey_toList,
      splitComma_append_comma _ _ (comma_not_mem_intDecString c.x),
      splitComma_no_comma _ (comma_not_mem_intDecString c.y)]
  unfold parseCellKey
  rw [hsplit]
  show (match jsNumberDec (intDecString c.x), jsNumberDec (intDecString c.y) with
    | some x, some y => some (⟨⌊x⌋, ⌊y⌋⟩ : GridCell)
    | _, _ => none) = some c
  rw [jsNumberDec_intDecString, jsNumberDec_intDecString]
  show some (⟨⌊(c.x : ℚ)⌋, ⌊(c.y : ℚ)⌋⟩ : GridCell) = some c
  rw [Int.floor_intCast, Int.floor_intCast]

/-- Keys that `parseCellKey` rejects are treated as absent by sanitisation:
a list holding only such a key sanitises to the empty blocked set. -/
theorem sanitize_rejected_key_absent (k : String) (g : GridSize)
    (hk : parseCellKey k = none) :
    sanitizeInvalidCellsS (some [some k]) g = [] := by
  simp [sanitizeInvalidCellsS, hk]

/-! ## Helper lemmas for the resize claim -/

theorem le_clampInt (v : Option ℚ) (lo hi : Int) : lo ≤ clampInt v lo hi := by
  cases v with
  | none => exact le_refl lo
  | some q => exact le_max_left _ _

theorem clampInt_le (v : Option ℚ) {lo hi : Int} (hlh : lo ≤ hi) :
    clampInt v lo hi ≤ hi := by
  cases v with
  | none => exact hlh
  | some q => exact max_le hlh (min_le_left _ _)

theorem mem_foldl_filterAdd {p : GridCell → Bool} :
    ∀ (l acc : List GridCell) (x : GridCell),
      x ∈ l.foldl (fun acc c => if p c = true then setAdd c acc else acc) acc →
      x ∈ acc ∨ (x ∈ l ∧ p x = true) := by
  intro l
  induction l with
  | nil => exact fun acc x h => Or.inl h
  | cons c rest ih =>
    intro acc x h
    rw [List.foldl_cons] at h
    rcases ih _ x h with hacc | ⟨hm, hp⟩
    · by_cases hc : p c = true
      · rw [if_pos hc] at hacc
        rcases (mem_setAdd _ _ _).mp hacc with rfl | hin
        · exact Or.inr ⟨List.mem_cons_self _ _, hc⟩
        · exact Or.inl hin
      · rw [if_neg hc] at hacc
        exact Or.inl hacc
    · exact Or.inr ⟨List.mem_cons_of_mem _ hm, hp⟩

/-! ## Claim theorems -/

/-- C1: In every document state reachable by applying the engine's operations
(place, move, erase, toggle-blocked, move-blocked, resize, clear, undo, and
opening/loading a saved snapshot) starting from the empty document, no two
components occupy the same cell and no component occupies a cell contained in
the blocked-cell set. -/
theorem C1_reachable_uniqueness (st : FullState) (h : Reachable st) :
    st.hist.doc.components.Pairwise (fun a b => a.cell ≠ b.cell) ∧
      ∀ c ∈ st.hist.doc.components, c.cell ∉ st.hist.doc.invalidCells := by
  obtain ⟨⟨⟨hcell, _, hoff⟩, _⟩, _⟩ := reachable_fullInv h
  exact ⟨hcell, hoff⟩

/-- Witness for C1 at a concrete two-step trace (place, then block a cell). -/
theorem C1_witness :
    demoTrace.hist.doc.components.Pairwise (fun a b => a.cell ≠ b.cell) ∧
      ∀ c ∈ demoTrace.hist.doc.components, c.cell ∉ demoTrace.hist.doc.invalidCells :=
  C1_reachable_uniqueness demoTrace
    (Reachable.step
      (Reachable.step Reachable.init
        (Step.place initialFullState 1 ⟨0, 0⟩
          (fun c hc => absurd hc (List.not_mem_nil c))))
      (Step.toggleBlocked _ ⟨1, 1⟩))

/-- C2: For every sequence of `N ≤ 50` undoable document operations from the
typed operation set applied to an initial document (empty undo history),
calling undo `N` times afterwards yields a document whose grid, components,
blocked-cell set, labels, and selection are equal by value to those of the
initial document. -/
theorem C2_undo_symmetry (ops : List UndoableOp) (d : EditorState)
    (hN : ops.length ≤ HISTORY_LIMIT) :
    (undoN ops.length (runOps ops ⟨d, []⟩)).doc.grid = d.grid ∧
      (undoN ops.length (runOps ops ⟨d, []⟩)).doc.components = d.components ∧
      (undoN ops.length (runOps ops ⟨d, []⟩)).doc.invalidCells = d.invalidCells ∧
      (undoN ops.length (runOps ops ⟨d, []⟩)).doc.invalidCellLabels =
        d.invalidCellLabels ∧
      (undoN ops.length (runOps ops ⟨d, []⟩)).doc.selectedComponentId =
        d.selectedComponentId ∧
      (undoN ops.length (runOps ops ⟨d, []⟩)).doc.selectedInvalidCellKey =
        d.selectedInvalidCellKey := by
  obtain ⟨v, hv⟩ := runOps_undoN_restore ops d []
    (by simpa using hN)
  rw [hv]
  exact ⟨rfl, rfl, rfl, rfl, rfl, rfl⟩

/-- Witness for C2: one toggle operation, one undo, on the initial state. -/
theorem C2_witness :
    (undoN [UndoableOp.toggleU ⟨1, 1⟩].length
          (runOps [UndoableOp.toggleU ⟨1, 1⟩] ⟨initialEditorState, []⟩)).doc.grid =
        initialEditorState.grid ∧
      (undoN [UndoableOp.toggleU ⟨1, 1⟩].length
          (runOps [UndoableOp.toggleU ⟨1, 1⟩] ⟨initialEditorState, []⟩)).doc.components =
        initialEditorState.components ∧
      (undoN [UndoableOp.toggleU ⟨1, 1⟩].length
          (runOps [UndoableOp.toggleU ⟨1, 1⟩] ⟨initialEditorState, []⟩)).doc.invalidCells =
        initialEditorState.invalidCells ∧
      (undoN [UndoableOp.toggleU ⟨1, 1⟩].length
          (runOps [UndoableOp.toggleU ⟨1, 1⟩] ⟨initialEditorState, []⟩)).doc.invalidCellLabels =
        initialEditorState.invalidCellLabels ∧
      (undoN [UndoableOp.toggleU ⟨1, 1⟩].length
          (runOps [UndoableOp.toggleU ⟨1, 1⟩] ⟨initialEditorState, []⟩)).doc.selectedComponentId =
        initialEditorState.selectedComponentId ∧
      (undoN [UndoableOp.toggleU ⟨1, 1⟩].length
          (runOps [UndoableOp.toggleU ⟨1, 1⟩] ⟨initialEditorState, []⟩)).doc.selectedInvalidCellKey =
        initialEditorState.selectedInvalidCellKey :=
  C2_undo_symmetry [UndoableOp.toggleU ⟨1, 1⟩] initialEditorState (by decide)

theorem setGridD_facts (cols rows : ℚ) (s : EditorState) :
    (∀ cell ∈ (setGridD cols rows s).invalidCells,
      isWithinGrid cell (setGridD cols rows s).grid = true) ∧
    ∀ comp ∈ (setGridD cols rows s).components,
      isWithinGrid comp.cell (setGridD cols rows s).grid = true := by
  constructor
  · intro cell hcell
    rcases mem_foldl_filterAdd s.invalidCells [] cell hcell with habs | ⟨_, hp⟩
    · exact absurd habs (List.not_mem_nil _)
    · exact hp
  · intro comp hcomp
    have hand := (List.mem_filter.mp hcomp).2
    rw [Bool.and_eq_true] at hand
    exact hand.1

/-- C3: the toolbar resize pipeline clamps each dimension to `[1, 1000]`
before applying it, the resulting grid satisfies the bounds, and every
blocked cell and component outside the new bounds is dropped. -/
theorem C3_resizeGrid_clamps_and_drops (ci ri : Option ℚ) (h : HistState) :
    (applyGridSize ci ri h).doc.grid =
        ⟨clampInt ci 1 1000, clampInt ri 1 1000⟩ ∧
      (1 ≤ (applyGridSize ci ri h).doc.grid.cols ∧
        (applyGridSize ci ri h).doc.grid.cols ≤ 1000) ∧
      (1 ≤ (applyGridSize ci ri h).doc.grid.rows ∧
        (applyGridSize ci ri h).doc.grid.rows ≤ 1000) ∧
      (∀ cell ∈ (applyGridSize ci ri h).doc.invalidCells,
        isWithinGrid cell (applyGridSize ci ri h).doc.grid = true) ∧
      (∀ comp ∈ (applyGridSize ci ri h).doc.components,
        isWithinGrid comp.cell (applyGridSize ci ri h).doc.grid = true) := by
  have h1c : (1 : Int) ≤ clampInt ci 1 1000 := le_clampInt ci 1 1000
  have h1r : (1 : Int) ≤ clampInt ri 1 1000 := le_clampInt ri 1 1000
  have hgs :
      (⟨max 1 ⌊((clampInt ci 1 1000 : Int) : ℚ)⌋,
        max 1 ⌊((clampInt ri 1 1000 : Int) : ℚ)⌋⟩ : GridSize) =
        ⟨clampInt ci 1 1000, clampInt ri 1 1000⟩ := by
    rw [Int.floor_intCast, Int.floor_intCast, max_eq_right h1c, max_eq_right h1r]
  have hgrid : (applyGridSize ci ri h).doc.grid =
      ⟨clampInt ci 1 1000, clampInt ri 1 1000⟩ := hgs
  refine ⟨hgrid, ?_, ?_, ?_, ?_⟩
  · rw [hgrid]
    exact ⟨h1c, clampInt_le ci (by norm_num)⟩
  · rw [hgrid]
    exact ⟨h1r, clampInt_le ri (by norm_num)⟩
  · intro cell hcell
    rw [hgrid]
    have hfact :=
      (setGridD_facts (clampInt ci 1 1000 : Int) (clampInt ri 1 1000 : Int)
        h.doc).1 cell hcell
    rw [show (setGridD ((clampInt ci 1 1000 : Int) : ℚ)
        ((clampInt ri 1 1000 : Int) : ℚ) h.doc).grid =
        ⟨clampInt ci 1 1000, clampInt ri 1 1000⟩ from hgs] at hfact
    exact hfact
  · intro comp hcomp
    rw [hgrid]
    have hfact :=
      (setGridD_facts (clampInt ci 1 1000 : Int) (clampInt ri 1 1000 : Int)
        h.doc).2 comp hcomp
    rw [show (setGridD ((clampInt ci 1 1000 : Int) : ℚ)
        ((clampInt ri 1 1000 : Int) : ℚ) h.doc).grid =
        ⟨clampInt ci 1 1000, clampInt ri 1 1000⟩ from hgs] at hfact
    exact hfact

/-- C10: for every cell within grid bounds and every camera with non-zero
zoom, the coordinate transforms round-trip through canvas space, and
`worldToCell` inverts `cellToWorld` directly. -/
theorem C10_transform_roundTrip (c : GridCell) (grid : GridSize)
    (camera : Camera) (_hb : isWithinGrid c grid = true) (hz : camera.zoom ≠ 0) :
    worldToCell
        (canvasToWorld (worldToCanvas (cellToWorld c DEFAULT_CELL_SIZE) camera)
          camera) DEFAULT_CELL_SIZE = c ∧
      worldToCell (cellToWorld c DEFAULT_CELL_SIZE) DEFAULT_CELL_SIZE = c := by
  have h40 : DEFAULT_CELL_SIZE ≠ 0 := by norm_num [DEFAULT_CELL_SIZE]
  have hwc : worldToCell (cellToWorld c DEFAULT_CELL_SIZE) DEFAULT_CELL_SIZE = c := by
    show (⟨⌊(c.x : ℚ) * DEFAULT_CELL_SIZE / DEFAULT_CELL_SIZE⌋,
      ⌊(c.y : ℚ) * DEFAULT_CELL_SIZE / DEFAULT_CELL_SIZE⌋⟩ : GridCell) = c
    rw [mul_div_cancel_right₀ _ h40, mul_div_cancel_right₀ _ h40,
      Int.floor_intCast, Int.floor_intCast]
  have hcw : canvasToWorld (worldToCanvas (cellToWorld c DEFAULT_CELL_SIZE) camera)
      camera = cellToWorld c DEFAULT_CELL_SIZE := by
    show (⟨((c.x : ℚ) * DEFAULT_CELL_SIZE * camera.zoom + camera.panX - camera.panX) /
        camera.zoom,
      ((c.y : ℚ) * DEFAULT_CELL_SIZE * camera.zoom + camera.panY - camera.panY) /
        camera.zoom⟩ : WorldPoint) =
      ⟨(c.x : ℚ) * DEFAULT_CELL_SIZE, (c.y : ℚ) * DEFAULT_CELL_SIZE⟩
    have hx : ((c.x : ℚ) * DEFAULT_CELL_SIZE * camera.zoom + camera.panX -
        camera.panX) / camera.zoom = (c.x : ℚ) * DEFAULT_CELL_SIZE := by
      field_simp
    have hy : ((c.y : ℚ) * DEFAULT_CELL_SIZE * camera.zoom + camera.panY -
        camera.panY) / camera.zoom = (c.y : ℚ) * DEFAULT_CELL_SIZE := by
      field_simp
    rw [hx, hy]
  rw [hcw]
  exact ⟨hwc, hwc⟩

/-- Witness for C10 at cell (3, 5), a 20×20 grid and a zoomed-out camera. -/
theorem C10_witness :
    worldToCell
        (canvasToWorld
          (worldToCanvas (cellToWorld ⟨3, 5⟩ DEFAULT_CELL_SIZE) ⟨7, -2, 1 / 2⟩)
          ⟨7, -2, 1 / 2⟩) DEFAULT_CELL_SIZE = ⟨3, 5⟩ ∧
      worldToCell (cellToWorld ⟨3, 5⟩ DEFAULT_CELL_SIZE) DEFAULT_CELL_SIZE =
        ⟨3, 5⟩ :=
  C10_transform_roundTrip ⟨3, 5⟩ ⟨20, 20⟩ ⟨7, -2, 1 / 2⟩ (by decide) (by norm_num)

/-- C4 counterexample: undo restores the snapshot's camera.  Block a cell
(undoable, camera at the origin in the snapshot), pan the camera to
`panX = 5` (not undoable), then undo: the camera changes back to the
snapshot's value, so "undo never modifies the camera" is false. -/
theorem C4_counterexample :
    (undoStep undoCameraDemo).doc.camera ≠ undoCameraDemo.doc.camera := by
  decide

/-- C4 (amended): undo snapshots cover the full editor state except the
viewport; undo replaces the live document (camera included) by the most
recent snapshot but never modifies the viewport. -/
theorem C4_undo_viewport_only (h : HistState) :
    (undoStep h).doc.viewport = h.doc.viewport ∧
      ∀ (p : List EditorState) (d : EditorState), h.past = p ++ [d] →
        undoStep h = ⟨{ d with viewport := h.doc.viewport }, p⟩ := by
  refine ⟨undoStep_viewport h, ?_⟩
  intro p d hp
  obtain ⟨doc, past⟩ := h
  simp only at hp
  subst hp
  exact undoStep_concat doc d p

/-- Witness for C4 at a concrete one-snapshot history. -/
theorem C4_witness :
    (undoStep ⟨initialEditorState, [makeEmptyEditorState]⟩).doc.viewport =
        (⟨initialEditorState, [makeEmptyEditorState]⟩ : HistState).doc.viewport ∧
      undoStep ⟨initialEditorState, [makeEmptyEditorState]⟩ =
        ⟨{ makeEmptyEditorState with viewport := initialEditorState.viewport },
          []⟩ :=
  ⟨(C4_undo_viewport_only ⟨initialEditorState, [makeEmptyEditorState]⟩).1,
    (C4_undo_viewport_only ⟨initialEditorState, [makeEmptyEditorState]⟩).2 []
      makeEmptyEditorState rfl⟩

theorem canDropInvalidOnCell_iff (s : EditorState) (toCell fromKey : GridCell) :
    canDropInvalidOnCell s toCell fromKey = true ↔
      isWithinGrid toCell s.grid = true ∧
        (toCell = fromKey ∨ toCell ∉ s.invalidCells) := by
  unfold canDropInvalidOnCell
  simp only [Bool.and_eq_true, Bool.not_eq_true', Bool.and_eq_false_iff,
    decide_eq_false_iff_not, decide_eq_true_eq, not_not]

/-- C5: `moveBlocked(fromKey, toKey)` is rejected (blocked set and components
unchanged) when the destination is out of grid bounds or already blocked and
different from the source; on success the blocked set contains the
destination, no longer contains the source (when they differ), and every
surviving component is off the destination cell. -/
theorem C5_moveBlocked_spec (h : HistState) (fromKey dropCell : GridCell) :
    ((¬ isWithinGrid dropCell h.doc.grid = true ∨
        (dropCell ≠ fromKey ∧ dropCell ∈ h.doc.invalidCells)) →
      (finalizeInvalidDrag fromKey dropCell h).doc.invalidCells =
          h.doc.invalidCells ∧
        (finalizeInvalidDrag fromKey dropCell h).doc.components =
          h.doc.components) ∧
      ((isWithinGrid dropCell h.doc.grid = true ∧
          (dropCell = fromKey ∨ dropCell ∉ h.doc.invalidCells)) →
        dropCell ∈ (finalizeInvalidDrag fromKey dropCell h).doc.invalidCells ∧
          (dropCell ≠ fromKey →
            fromKey ∉ (finalizeInvalidDrag fromKey dropCell h).doc.invalidCells) ∧
          ∀ c ∈ (finalizeInvalidDrag fromKey dropCell h).doc.components,
            c.cell ≠ dropCell) := by
  constructor
  · intro hrej
    have hfalse : ¬ canDropInvalidOnCell h.doc dropCell fromKey = true := by
      intro ht
      obtain ⟨hw, hor⟩ := (canDropInvalidOnCell_iff _ _ _).mp ht
      rcases hrej with hout | ⟨hne, hmem⟩
      · exact hout hw
      · rcases hor with heq | hnm
        · exact hne heq
        · exact hnm hmem
    unfold finalizeInvalidDrag
    rw [if_neg hfalse]
    exact ⟨rfl, rfl⟩
  · intro hok
    have htrue : canDropInvalidOnCell h.doc dropCell fromKey = true :=
      (canDropInvalidOnCell_iff _ _ _).mpr hok
    have hinv : (finalizeInvalidDrag fromKey dropCell h).doc.invalidCells =
        setAdd dropCell (setDelete fromKey h.doc.invalidCells) := by
      unfold finalizeInvalidDrag
      rw [if_pos htrue]
      rfl
    have hcomps : (finalizeInvalidDrag fromKey dropCell h).doc.components =
        ensureAutoNames
          (h.doc.components.filter (fun c => c.cell ≠ dropCell)) := by
      unfold finalizeInvalidDrag
      rw [if_pos htrue]
      rfl
    refine ⟨?_, ?_, ?_⟩
    · rw [hinv]
      exact (mem_setAdd _ _ _).mpr (Or.inl rfl)
    · intro hne hmem
      rw [hinv] at hmem
      rcases (mem_setAdd _ _ _).mp hmem with heq | hin
      · exact hne heq.symm
      · exact ((mem_setDelete _ _ _).mp hin).2 rfl
    · intro c hc
      rw [hcomps] at hc
      obtain ⟨c₀, hc₀, _, hcell, _⟩ := mem_ensureAutoNames_shape hc
      have hcp := (List.mem_filter.mp hc₀).2
      rw [← hcell]
      simpa using hcp

/-- Witness for C5: the spec scenario — blocked cell at `(2,2)`, component at
`(4,4)`; moving the blocked cell to `(4,4)` succeeds, evicting the component;
moving a blocked cell onto the already-blocked `(2,2)` from elsewhere is
rejected. -/
theorem C5_witness :
    (⟨4, 4⟩ : GridCell) ∈
        (finalizeInvalidDrag ⟨2, 2⟩ ⟨4, 4⟩ c5demo).doc.invalidCells ∧
      (⟨2, 2⟩ : GridCell) ∉
        (finalizeInvalidDrag ⟨2, 2⟩ ⟨4, 4⟩ c5demo).doc.invalidCells ∧
      (∀ c ∈ (finalizeInvalidDrag ⟨2, 2⟩ ⟨4, 4⟩ c5demo).doc.components,
        c.cell ≠ ⟨4, 4⟩) ∧
      (finalizeInvalidDrag ⟨0, 0⟩ ⟨2, 2⟩ c5demo).doc.invalidCells =
          c5demo.doc.invalidCells ∧
        (finalizeInvalidDrag ⟨0, 0⟩ ⟨2, 2⟩ c5demo).doc.components =
          c5demo.doc.components := by
  have hs := (C5_moveBlocked_spec c5demo ⟨2, 2⟩ ⟨4, 4⟩).2 (by decide)
  have hr := (C5_moveBlocked_spec c5demo ⟨0, 0⟩ ⟨2, 2⟩).1
    (Or.inr ⟨by decide, by decide⟩)
  exact ⟨hs.1, hs.2.1 (by decide), hs.2.2, hr.1, hr.2⟩

/-- C6: a persisted snapshot that fails structural validation (wrong version
tag, missing grid or grid dimensions, non-array components, missing camera
or camera zoom) is rejected outright — decoding yields `none` — and opening
it falls back to the empty document (keeping only the live viewport), so no
field of the rejected snapshot is adopted. -/
theorem C6_corrupt_snapshot_rejected (raw : RawSnapshot) (curr : EditorState)
    (hbad : snapshotStructurallyInvalid raw) :
    fromPersistedEditorState raw = none ∧
      openSnapshot raw curr =
        { makeEmptyEditorState with viewport := curr.viewport } := by
  have hnone : fromPersistedEditorState raw = none := by
    by_cases hv0 : raw.v = some 1
    · obtain ⟨v, grid, comps, cam, tl, act, sel, pm, inv, selInv, labels⟩ := raw
      have hv0' : v = some 1 := hv0
      subst hv0'
      rcases hbad with hv | hg | ⟨g, hg, hcr⟩ | hc | hcamn | ⟨cam2, hcam2, hz2⟩
      · exact absurd rfl hv
      · have hg' : grid = none := hg
        subst hg'
        rfl
      · have hg' : grid = some g := hg
        subst hg'
        obtain ⟨gc, gr⟩ := g
        rcases hcr with h1 | h1
        · have h1' : gc = none := h1
          subst h1'
          rfl
        · have h1' : gr = none := h1
          subst h1'
          rcases gc with _ | c <;> rfl
      · have hc' : comps = none := hc
        subst hc'
        rcases grid with _ | g
        · rfl
        · obtain ⟨gc, gr⟩ := g
          rcases gc with _ | c
          · rfl
          · rcases gr with _ | r <;> rfl
      · have hc' : cam = none := hcamn
        subst hc'
        rcases grid with _ | g
        · rfl
        · obtain ⟨gc, gr⟩ := g
          rcases gc with _ | c
          · rfl
          · rcases gr with _ | r
            · rfl
            · rcases comps with _ | cs <;> rfl
      · have hc' : cam = some cam2 := hcam2
        subst hc'
        obtain ⟨px, py, z⟩ := cam2
        have hz' : z = none := hz2
        subst hz'
        rcases grid with _ | g
        · rfl
        · obtain ⟨gc, gr⟩ := g
          rcases gc with _ | c
          · rfl
          · rcases gr with _ | r
            · rfl
            · rcases comps with _ | cs <;> rfl
    · unfold fromPersistedEditorState
      rw [if_pos hv0]
  refine ⟨hnone, ?_⟩
  unfold openSnapshot
  rw [hnone]

/-- Witness for C6 at a concrete corrupt snapshot (`components` not an
array). -/
theorem C6_witness :
    fromPersistedEditorState corruptRawSnapshot = none ∧
      openSnapshot corruptRawSnapshot initialEditorState =
        { makeEmptyEditorState with viewport := initialEditorState.viewport } :=
  C6_corrupt_snapshot_rejected corruptRawSnapshot initialEditorState
    (Or.inr (Or.inr (Or.inr (Or.inl rfl))))

/-- C7 counterexample: sequential placement yields persisted auto-names
`L1, L2, L3`, but after deleting the component auto-named `L3` (the maximum
suffix) the next placed LIGHT receives `L3` again — the number is reused, so
"a number is never reused" is false.  (The counter is re-seeded from the
maximum *surviving* suffix, not remembered.) -/
theorem C7_counterexample :
    (autoNameTraceA.doc.components.map (fun c => (c.id, c.autoName)) =
        [(1, some "L1"), (2, some "L2"), (3, some "L3")]) ∧
      ((placeClick 4 ⟨3, 0⟩ (deleteComponentT 3 autoNameTraceA)).doc.components.map
          (fun c => (c.id, c.autoName)) =
        [(1, some "L1"), (2, some "L2"), (4, some "L3")]) := by
  decide

/-- C7 (amended): auto-names are assigned at creation from a counter seeded
from the maximum existing suffix among surviving components, so sequential
placement yields `L1, L2, L3`; deleting a non-maximal name (`L1`) and placing
again yields `L4` with the survivors unrenumbered, but deleting the maximal
name frees its number for reuse. -/
theorem C7_autoName_scenario :
    (autoNameTraceA.doc.components.map (fun c => (c.id, c.autoName)) =
        [(1, some "L1"), (2, some "L2"), (3, some "L3")]) ∧
      ((placeClick 4 ⟨3, 0⟩ (deleteComponentT 1 autoNameTraceA)).doc.components.map
          (fun c => (c.id, c.autoName)) =
        [(2, some "L2"), (3, some "L3"), (4, some "L4")]) := by
  decide

/-- C8: a rename whose trimmed label is non-empty, is not (case-insensitively)
the target's current custom label, and case-insensitively collides with the
display name of some other item fails with the naming-conflict error and
leaves the document unchanged; a rename whose label trims to the empty string
succeeds and clears the target's custom label, so its display reverts to the
positional auto-name. -/
theorem C8_rename_spec (s : EditorState) (id : Nat) (raw : String) :
    (strTrim raw ≠ "" →
      ¬(currentCustomLabel s id ≠ "" ∧
          strToLower (currentCustomLabel s id) = strToLower (strTrim raw)) →
      strToLower (strTrim raw) ∈ takenNames s →
      commitRenameComponent s id raw = (s, some renameErrMsg)) ∧
      (strTrim raw = "" →
        (commitRenameComponent s id raw).2 = none ∧
          ∀ c ∈ (commitRenameComponent s id raw).1.components, c.id = id →
            c.label = some "" ∧
              displayNameOfComp (commitRenameComponent s id raw).1.components c =
                positionalAuto (commitRenameComponent s id raw).1.components
                  c.id) := by
  constructor
  · intro h1 h2 h3
    unfold commitRenameComponent
    rw [if_neg h1, if_neg h2, if_pos h3]
  · intro h0
    have hres : commitRenameComponent s id raw =
        ({ s with
            components :=
              s.components.map
                (fun c =>
                  if c.id = id then { c with label := some "" } else c) },
          none) := by
      unfold commitRenameComponent
      rw [if_pos h0]
    rw [hres]
    refine ⟨rfl, ?_⟩
    intro c hc hid
    obtain ⟨c₀, hc₀, hmap⟩ := List.mem_map.mp hc
    by_cases hcase : c₀.id = id
    · rw [if_pos hcase] at hmap
      have hlabel : c.label = some "" := by rw [← hmap]
      refine ⟨hlabel, ?_⟩
      unfold displayNameOfComp
      rw [hlabel, if_neg (by decide)]
    · rw [if_neg hcase] at hmap
      rw [hmap] at hcase
      exact absurd hid hcase

/-- Witness for C8: the spec scenario — two LIGHTs displayed `L1`, `L2`;
renaming component 2 to `"L1"` is rejected with the naming-conflict error,
renaming it to the empty string succeeds. -/
theorem C8_witness :
    commitRenameComponent renameDemoState 2 "L1" =
        (renameDemoState, some renameErrMsg) ∧
      (commitRenameComponent renameDemoState 2 "").2 = none :=
  ⟨(C8_rename_spec renameDemoState 2 "L1").1 (by decide) (by decide) (by decide),
    ((C8_rename_spec renameDemoState 2 "").2 (by decide)).1⟩

/-- C9 counterexample: parsing does not accept only canonical integer keys —
`"1.5,2"` (fractional first coordinate) parses to the cell `(1,2)` via
`Math.floor`, and `"1,2,3"` (an extra component) parses to `(1,2)` with the
extra piece ignored; sanitisation then maps the fractional key to a cell
rather than treating it as absent. -/
theorem C9_counterexample :
    parseCellKey "1.5,2" = some ⟨1, 2⟩ ∧
      parseCellKey "1,2,3" = some ⟨1, 2⟩ ∧
      sanitizeInvalidCellsS (some [some "1.5,2"]) ⟨5, 5⟩ = ["1,2"] := by
  have hx : jsNumberDec ⟨['1', '.', '5']⟩ =
      some (((1 : ℕ) : ℚ) + ((5 : ℕ) : ℚ) / 10 ^ (1 : ℕ)) := rfl
  have hfx : (⌊((1 : ℕ) : ℚ) + ((5 : ℕ) : ℚ) / 10 ^ (1 : ℕ)⌋ : ℤ) = 1 := by
    norm_num
  have hy : jsNumberDec ⟨['2']⟩ = some (((2 : ℕ) : ℚ)) := rfl
  have hfy : (⌊((2 : ℕ) : ℚ)⌋ : ℤ) = 2 := by norm_num
  have h1 : parseCellKey "1.5,2" = some ⟨1, 2⟩ := by
    unfold parseCellKey
    show (match jsNumberDec ⟨['1', '.', '5']⟩, jsNumberDec ⟨['2']⟩ with
      | some x, some y => some (⟨⌊x⌋, ⌊y⌋⟩ : GridCell)
      | _, _ => none) = some ⟨1, 2⟩
    rw [hx, hy]
    show some (⟨⌊((1 : ℕ) : ℚ) + ((5 : ℕ) : ℚ) / 10 ^ (1 : ℕ)⌋,
        ⌊((2 : ℕ) : ℚ)⌋⟩ : GridCell) = some ⟨1, 2⟩
    rw [hfx, hfy]
  refine ⟨h1, ?_, ?_⟩
  · have hy1 : jsNumberDec ⟨['1']⟩ = some (((1 : ℕ) : ℚ)) := rfl
    have hfy1 : (⌊((1 : ℕ) : ℚ)⌋ : ℤ) = 1 := by norm_num
    unfold parseCellKey
    show (match jsNumberDec ⟨['1']⟩, jsNumberDec ⟨['2']⟩ with
      | some x, some y => some (⟨⌊x⌋, ⌊y⌋⟩ : GridCell)
      | _, _ => none) = some ⟨1, 2⟩
    rw [hy1, hy]
    show some (⟨⌊((1 : ℕ) : ℚ)⌋, ⌊((2 : ℕ) : ℚ)⌋⟩ : GridCell) = some ⟨1, 2⟩
    rw [hfy1, hfy]
  · show (match parseCellKey "1.5,2" with
      | none => ([] : List String)
      | some c =>
        if c.x < 0 || c.y < 0 || (5 : Int) ≤ c.x || (5 : Int) ≤ c.y then []
        else setAdd (cellKey c) []) = ["1,2"]
    rw [h1]
    decide

/-- C9 (amended): every canonical key `"x,y"` round-trips to its cell, and a
key that fails to parse (e.g. a non-numeric component) is treated as absent
by sanitisation rather than mapped to a cell; but parsing also accepts
non-canonical numeric keys, flooring fractional coordinates and ignoring
extra comma-separated components. -/
theorem C9_parse_canonical_and_absent :
    (∀ c : GridCell, parseCellKey (cellKey c) = some c) ∧
      ∀ (k : String) (g : GridSize), parseCellKey k = none →
        sanitizeInvalidCellsS (some [some k]) g = [] :=
  ⟨parseCellKey_cellKey, sanitize_rejected_key_absent⟩

/-- Witness for C9 at the cell `(-3,4)` and the unparseable key `"a,b"`. -/
theorem C9_witness :
    parseCellKey (cellKey ⟨-3, 4⟩) = some ⟨-3, 4⟩ ∧
      parseCellKey "a,b" = none ∧
      sanitizeInvalidCellsS (some [some "a,b"]) ⟨5, 5⟩ = [] :=
  ⟨C9_parse_canonical_and_absent.1 ⟨-3, 4⟩, by decide,
    C9_parse_canonical_and_absent.2 "a,b" ⟨5, 5⟩ (by decide)⟩

end CeilingEditor
